import Mathlib

/-!
PrefetchDataset (flashlight/dataset/PrefetchDataset.cpp)

A shallow embedding of `fl::PrefetchDataset`: the constructor, `get` and `size`.

Modelling conventions.
* `int64_t` values are `Int` and `size_t` values are `Nat`, without wrap-around.
  On an object built by the constructor, past `checkIndexBounds` and
  `numThreads_ == 0`, the operands of the mixed comparisons and of the sum
  `idx + prefetchCache_.size()` are non-negative (`0 ≤ idx < size()`,
  `prefetchSize_ > 0`), so the conversions to unsigned keep their values, and the
  sum stays below `size() + prefetchSize_`.
* The wrapped dataset is read-only, so `dataset_->get(i)` is a function of `i`:
  `Except.ok sample`, or `Except.error e` when it throws `e`.
* A `std::future<std::string>` in `prefetchCache_` is a `PendingFetch`: the index
  captured by its task and whether the future still holds its shared state.
  Waiting for the worker is not modelled: `front().get()` evaluates the task.
* `fl::save` / `fl::load` (Serialization.h) are the two fields of `Serialization`.
* The two `while` loops of `get` are run by `whileLoop`, which also records, for
  every executed iteration, what it did and the object state it left.
* The worker threads are the transition system `Pool`: the consumer steps of a
  schedule are the recorded iterations of `get` and its wait on the front future,
  the worker steps (`start`, `finish`) may interleave with them in any order.
-/

namespace fl

/-- Exceptions that leave `PrefetchDataset`; `ε` is the type of the exceptions
thrown by the wrapped dataset. -/
inductive Err (ε : Type) where
  /-- Thrown by the constructor (`std::invalid_argument`). -/
  | invalid_argument : Err ε
  /-- Thrown by `checkIndexBounds` (`std::out_of_range`). -/
  | out_of_range : Err ε
  /-- Exception `e` of `dataset_->get`, thrown directly in pass-through mode or
  rethrown by `std::future::get`. -/
  | fetch (e : ε) : Err ε
  /-- Result of `std::future::get` on a future whose `get` was called before
  (`valid() == false`): undefined by the standard, `std::future_error(no_state)`
  in libstdc++. -/
  | no_state : Err ε
  /-- Result of `front()` on an empty `std::queue` (undefined behaviour). -/
  | empty_front : Err ε
  deriving DecidableEq, Repr

/-- The wrapped `fl::Dataset`: `size()` and `get(idx)`. -/
structure Dataset (ε α : Type) where
  size : Int
  get : Int → Except ε α

/-- The pair `fl::save` / `fl::load`, with `β` the type of the string buffer. -/
structure Serialization (α β : Type) where
  save : α → β
  load : β → α

/-- One `std::future<std::string>` of `prefetchCache_`. -/
structure PendingFetch where
  /-- The `fetchIdx` captured by the enqueued lambda. -/
  fetchIdx : Int
  /-- Value of `std::future::valid()`: `false` once `get()` has been called on it. -/
  valid : Bool
  deriving DecidableEq, Repr

/-- The `ThreadPool` created by the constructor. -/
structure ThreadPool where
  numThreads : Int
  deriving DecidableEq, Repr

/-- The data members of `fl::PrefetchDataset`; the front of the `std::queue`
`prefetchCache_` is the head of the list. -/
structure PrefetchDataset (ε α : Type) where
  dataset_ : Dataset ε α
  numThreads_ : Int
  prefetchSize_ : Int
  curIdx_ : Int
  prefetchCache_ : List PendingFetch
  threadPool_ : Option ThreadPool

/-- What one loop iteration of `get` did. -/
inductive Event where
  /-- The iteration `prefetchCache_.pop(); ++curIdx_;` dropped the future `f`. -/
  | pop (f : PendingFetch) : Event
  /-- The iteration handed a task for `fetchIdx` to `threadPool_->enqueue`. -/
  | enqueue (fetchIdx : Int) : Event
  deriving DecidableEq, Repr

/-- The value returned by the model of `get`: what the caller observes
(`outcome`), the object afterwards (`state`) and the executed loop iterations in
order, each with the object state it left (`trace`). -/
structure GetResult (ε α : Type) where
  outcome : Except (Err ε) α
  state : PrefetchDataset ε α
  trace : List (Event × PrefetchDataset ε α)

variable {ε α β σ : Type}

/-- Constructor `PrefetchDataset::PrefetchDataset(dataset, numThreads, prefetchSize)`;
`none` is the null `shared_ptr`. -/
def PrefetchDataset.new (dataset : Option (Dataset ε α)) (numThreads prefetchSize : Int) :
    Except (Err ε) (PrefetchDataset ε α) :=
  match dataset with
  | none => .error .invalid_argument
  | some ds =>
    if ¬(numThreads > 0 ∧ prefetchSize > 0) ∧ ¬(numThreads = 0 ∧ prefetchSize = 0) then
      .error .invalid_argument
    else
      .ok { dataset_ := ds
            numThreads_ := numThreads
            prefetchSize_ := prefetchSize
            curIdx_ := -1
            prefetchCache_ := []
            threadPool_ := if numThreads > 0 then some ⟨numThreads⟩ else none }

/-- Method `PrefetchDataset::size()`. -/
def PrefetchDataset.size (s : PrefetchDataset ε α) : Int :=
  s.dataset_.size

/-- Modelled from the spec: `Dataset::checkIndexBounds` is declared in Dataset.h and
defined outside PrefetchDataset.cpp; by the spec `get` fails with `IndexOutOfRange`
unless `0 ≤ idx < size()`. -/
def PrefetchDataset.checkIndexBounds (s : PrefetchDataset ε α) (idx : Int) :
    Except (Err ε) Unit :=
  if ¬(idx ≥ 0 ∧ idx < s.size) then .error .out_of_range else .ok ()

/-- The task given to `threadPool_->enqueue`: fetch `fetchIdx` and serialise it. -/
def fetchTask (ser : Serialization α β) (ds : Dataset ε α) (fetchIdx : Int) : Except ε β :=
  match ds.get fetchIdx with
  | .ok sample => .ok (ser.save sample)
  | .error e => .error e

/-- Result of `std::future::get()` on the future `f`: the value of its task, or the
exception the task threw. -/
def PendingFetch.get (ser : Serialization α β) (ds : Dataset ε α) (f : PendingFetch) :
    Except (Err ε) β :=
  if f.valid then
    match fetchTask ser ds f.fetchIdx with
    | .ok str => .ok str
    | .error e => .error (.fetch e)
  else .error .no_state

/-- A `while` loop: `body s` is `none` when the loop condition is false (or the
body breaks) in state `s`, and otherwise the event and the state after one
iteration.  Returns the state at loop exit and the executed iterations. -/
def whileLoop (body : σ → Option (Event × σ)) : Nat → σ → σ × List (Event × σ)
  | 0, s => (s, [])
  | fuel + 1, s =>
    match body s with
    | none => (s, [])
    | some (e, s') => ((whileLoop body fuel s').1, (e, s') :: (whileLoop body fuel s').2)

/-- One iteration of
`while (!prefetchCache_.empty() && idx != curIdx_) { prefetchCache_.pop(); ++curIdx_; }`. -/
def removeFromCacheBody (idx : Int) (s : PrefetchDataset ε α) :
    Option (Event × PrefetchDataset ε α) :=
  match s.prefetchCache_ with
  | [] => none
  | f :: rest =>
    if idx ≠ s.curIdx_ then
      some (.pop f, { s with prefetchCache_ := rest, curIdx_ := s.curIdx_ + 1 })
    else none

/-- One iteration of the loop
`while (prefetchCache_.size() < prefetchSize_) { auto fetchIdx = idx + prefetchCache_.size();
if (fetchIdx >= size()) break; prefetchCache_.emplace(threadPool_->enqueue(task)); }`. -/
def addToCacheBody (idx : Int) (s : PrefetchDataset ε α) :
    Option (Event × PrefetchDataset ε α) :=
  if (s.prefetchCache_.length : Int) < s.prefetchSize_ then
    let fetchIdx := idx + s.prefetchCache_.length
    if fetchIdx ≥ s.size then none
    else some (.enqueue fetchIdx,
      { s with prefetchCache_ := s.prefetchCache_ ++ [{ fetchIdx := fetchIdx, valid := true }] })
  else none

/-- The loop "remove from cache (if necessary)" of `get`. -/
def removeFromCache (idx : Int) (s : PrefetchDataset ε α) :
    PrefetchDataset ε α × List (Event × PrefetchDataset ε α) :=
  whileLoop (removeFromCacheBody idx) s.prefetchCache_.length s

/-- The loop "add to cache (if necessary)" of `get`. -/
def addToCache (idx : Int) (s : PrefetchDataset ε α) :
    PrefetchDataset ε α × List (Event × PrefetchDataset ε α) :=
  whileLoop (addToCacheBody idx) (s.prefetchSize_ - s.prefetchCache_.length).toNat s

/-- The last part of `get`: `front().get()`, `fl::load`, `pop()`, `curIdx_ = idx + 1`.
An exception of `front().get()` leaves the function before `pop()` and the
assignment; the future it was called on has given up its shared state. -/
def serveFront (ser : Serialization α β) (idx : Int) (s : PrefetchDataset ε α)
    (trace : List (Event × PrefetchDataset ε α)) : GetResult ε α :=
  match s.prefetchCache_ with
  | [] => { outcome := .error .empty_front, state := s, trace := trace }
  | f :: rest =>
    match f.get ser s.dataset_ with
    | .ok curSampleStr =>
      { outcome := .ok (ser.load curSampleStr)
        state := { s with prefetchCache_ := rest, curIdx_ := idx + 1 }
        trace := trace }
    | .error e =>
      { outcome := .error e
        state := { s with prefetchCache_ := { f with valid := false } :: rest }
        trace := trace }

/-- Method `PrefetchDataset::get(idx)`. -/
def PrefetchDataset.get (ser : Serialization α β) (s : PrefetchDataset ε α) (idx : Int) :
    GetResult ε α :=
  match s.checkIndexBounds idx with
  | .error e => { outcome := .error e, state := s, trace := [] }
  | .ok _ =>
    if s.numThreads_ = 0 then
      match s.dataset_.get idx with
      | .ok sample => { outcome := .ok sample, state := s, trace := [] }
      | .error e => { outcome := .error (.fetch e), state := s, trace := [] }
    else
      let r1 := removeFromCache idx s
      let r2 := addToCache idx r1.1
      serveFront ser idx r2.1 (r1.2 ++ r2.2)

/-- The indices of the tasks handed to the thread pool during one call of `get`. -/
def GetResult.submitted (r : GetResult ε α) : List Int :=
  r.trace.filterMap fun p => match p.1 with
    | .enqueue i => some i
    | .pop _ => none

/-- The futures dropped by the first loop during one call of `get`. -/
def GetResult.discarded (r : GetResult ε α) : List PendingFetch :=
  r.trace.filterMap fun p => match p.1 with
    | .pop f => some f
    | .enqueue _ => none

/-- The object after the calls `get(idxs[0]), get(idxs[1]), ...` in this order. -/
def runCalls (ser : Serialization α β) : PrefetchDataset ε α → List Int → PrefetchDataset ε α
  | s, [] => s
  | s, idx :: rest => runCalls ser (s.get ser idx).state rest

/-- What the caller observes from the calls `get(idxs[0]), get(idxs[1]), ...`. -/
def session (ser : Serialization α β) :
    PrefetchDataset ε α → List Int → List (Except (Err ε) α)
  | _, [] => []
  | s, idx :: rest => (s.get ser idx).outcome :: session ser (s.get ser idx).state rest

/-- Reference behaviour in the words of the spec: "a direct call to the Indexed
Source", whose failure is a `FetchError`. -/
def directGet (ds : Dataset ε α) (idx : Int) : Except (Err ε) α :=
  match ds.get idx with
  | .ok sample => .ok sample
  | .error e => .error (.fetch e)

/-- Reference behaviour in the words of the spec for a sequence of calls: each
index is answered by the Indexed Source alone. -/
def directSession (ds : Dataset ε α) (idxs : List Int) : List (Except (Err ε) α) :=
  idxs.map (directGet ds)

/-- Two objects agree on the members that `get` never assigns. -/
def SameConfig (s t : PrefetchDataset ε α) : Prop :=
  t.dataset_ = s.dataset_ ∧ t.numThreads_ = s.numThreads_ ∧
    t.prefetchSize_ = s.prefetchSize_ ∧ t.threadPool_ = s.threadPool_

/-- The futures of the queue `q` target the indices `c, c + 1, c + 2, ...` in order. -/
def Targets : Int → List PendingFetch → Prop
  | _, [] => True
  | c, f :: q => f.fetchIdx = c ∧ Targets (c + 1) q

/-- No future of the queue has had its `get()` called. -/
def AllValid (q : List PendingFetch) : Prop :=
  ∀ f ∈ q, f.valid = true

/-- The positional invariant in the words of the spec: for all `k` in
`[0, queue.length)` the pending fetch at position `k` targets index
`currentIndex + k`, and that index is `< size()`. -/
def PositionalInvariant (s : PrefetchDataset ε α) : Prop :=
  ∀ (k : Nat) (h : k < s.prefetchCache_.length),
    (s.prefetchCache_.get ⟨k, h⟩).fetchIdx = s.curIdx_ + k ∧
      (s.prefetchCache_.get ⟨k, h⟩).fetchIdx < s.size

instance (s : PrefetchDataset ε α) : Decidable (PositionalInvariant s) := by
  unfold PositionalInvariant
  infer_instance

/-- States reachable from `s0` by calls of `get`, whatever their outcome. -/
inductive Reachable (ser : Serialization α β) (s0 : PrefetchDataset ε α) :
    PrefetchDataset ε α → Prop where
  | start : Reachable ser s0 s0
  | call {s : PrefetchDataset ε α} (idx : Int) :
      Reachable ser s0 s → Reachable ser s0 (s.get ser idx).state

/-- States reachable from `s0` by calls of `get` none of which threw an exception of
the wrapped dataset. -/
inductive ReachableNoFetchError (ser : Serialization α β) (s0 : PrefetchDataset ε α) :
    PrefetchDataset ε α → Prop where
  | start : ReachableNoFetchError ser s0 s0
  | call {s : PrefetchDataset ε α} (idx : Int) :
      ReachableNoFetchError ser s0 s →
      (∀ e, (s.get ser idx).outcome ≠ .error (.fetch e)) →
      ReachableNoFetchError ser s0 (s.get ser idx).state

/-! ### Concrete sources used to instantiate the theorems -/

/-- A source of `size` samples, sample `i` being `10 + i`, whose `get` throws
exactly on the indices of `failing`. -/
def exampleSource (size : Int) (failing : List Int) : Dataset Unit Int where
  size := size
  get := fun i => if i ∈ failing then .error () else .ok (10 + i)

/-- A serialisation that round-trips: shift by seven and back. -/
def exampleSerialization : Serialization Int Int where
  save := fun x => x + 7
  load := fun y => y - 7

/-- The object the constructor builds for an example source. -/
def exampleCache (size : Int) (failing : List Int) (numThreads prefetchSize : Int) :
    PrefetchDataset Unit Int where
  dataset_ := exampleSource size failing
  numThreads_ := numThreads
  prefetchSize_ := prefetchSize
  curIdx_ := -1
  prefetchCache_ := []
  threadPool_ := if numThreads > 0 then some ⟨numThreads⟩ else none

/-! ### Sequences of calls and of indices -/

/-- The results of the calls `get(idxs[0]), get(idxs[1]), ...`, each made on the
object the previous call left. -/
def calls (ser : Serialization α β) :
    PrefetchDataset ε α → List Int → List (GetResult ε α)
  | _, [] => []
  | s, idx :: rest => s.get ser idx :: calls ser (s.get ser idx).state rest

/-- The indices handed to the thread pool by a sequence of calls, in order. -/
def allSubmitted : List (GetResult ε α) → List Int
  | [] => []
  | r :: rs => r.submitted ++ allSubmitted rs

/-- The list `a, a + 1, ..., a + n - 1`. -/
def intRange : Int → Nat → List Int
  | _, 0 => []
  | a, n + 1 => a :: intRange (a + 1) n

/-- Futures that still hold their shared state, for the indices
`a, a + 1, ..., a + n - 1`. -/
def freshFutures (a : Int) (n : Nat) : List PendingFetch :=
  (intRange a n).map fun i => { fetchIdx := i, valid := true }

/-- The number of discarded entries in the words of the claim on reconciliation:
with base index `c` and queue length `L`, `idx - c` entries when
`c ≤ idx < c + L`, and all `L` entries otherwise. -/
def reconcileCount (c idx : Int) (L : Nat) : Nat :=
  if c ≤ idx ∧ idx < c + L then (idx - c).toNat else L

/-- The number of futures the second loop pushes on a queue of length `len`: it
stops when the queue has `prefetchSize` entries or the next index `idx + len`
reaches `size`. -/
def refillCount (prefetchSize size idx : Int) (len : Nat) : Nat :=
  (min (prefetchSize - len) (size - idx - len)).toNat

/-! ### The worker pool -/

/-- Modelled from the spec: the Worker Pool (`ThreadPool`) is defined outside
PrefetchDataset.cpp.  By the spec it is a "fixed-size set of threads consuming
submitted tasks", "all concurrency is preemptive/parallel threads", and a discarded
entry's "background work is not interrupted; it completes and its result is
dropped".  A configuration holds the number of worker threads, the fetch indices of
the tasks submitted and not yet taken by a worker (oldest first), and the fetch
indices of the tasks a worker is running. -/
structure Pool where
  workers : Nat
  waiting : List Int
  running : List Int
  deriving DecidableEq, Repr

/-- Modelled from the spec: the steps of the consumer thread that concern the pool
(`submit`, `drop`, `await`) and the steps of the worker threads (`start`,
`finish`). -/
inductive PoolEvent where
  /-- The consumer hands a task for index `i` to `threadPool_->enqueue`. -/
  | submit (i : Int) : PoolEvent
  /-- The consumer pops the future for index `i` in the first loop of `get`. -/
  | drop (i : Int) : PoolEvent
  /-- The call `front().get()` on the live future for index `i` returns. -/
  | await (i : Int) : PoolEvent
  /-- A free worker takes the oldest waiting task. -/
  | start : PoolEvent
  /-- A worker ends its fetch of index `i`. -/
  | finish (i : Int) : PoolEvent
  deriving DecidableEq, Repr

/-- Modelled from the spec: one step of the Worker Pool, `none` when the step cannot
happen.  A submitted task waits; dropping a future changes nothing (cancellation:
none); `front().get()` returns only when no fetch of that index is waiting or
running; a worker starts the oldest waiting task when fewer than `workers` tasks
run; a running task may end at any moment. -/
def Pool.step (p : Pool) : PoolEvent → Option Pool
  | .submit i => some { p with waiting := p.waiting ++ [i] }
  | .drop _ => some p
  | .await i => if i ∈ p.waiting ∨ i ∈ p.running then none else some p
  | .start =>
    match p.waiting with
    | [] => none
    | i :: rest =>
      if p.running.length < p.workers then
        some { p with waiting := rest, running := p.running ++ [i] }
      else none
  | .finish i => if i ∈ p.running then some { p with running := p.running.erase i } else none

/-- Modelled from the spec: the configuration after a schedule, a sequence of steps
of the consumer and of the workers in any interleaving; `none` when a step of it
cannot happen. -/
def Pool.run : Pool → List PoolEvent → Option Pool
  | p, [] => some p
  | p, e :: es =>
    match p.step e with
    | none => none
    | some p' => p'.run es

/-- The steps of a schedule that the consumer thread makes. -/
def consumerPart (sched : List PoolEvent) : List PoolEvent :=
  sched.filter fun e => match e with
    | .submit _ => true
    | .drop _ => true
    | .await _ => true
    | .start => false
    | .finish _ => false

/-- The pool of a freshly constructed object: `numThreads_` workers, no task. -/
def initialPool (s : PrefetchDataset ε α) : Pool :=
  { workers := s.numThreads_.toNat, waiting := [], running := [] }

/-- The consumer step of one executed loop iteration of `get`. -/
def Event.toPoolEvent : Event → PoolEvent
  | .pop f => .drop f.fetchIdx
  | .enqueue i => .submit i

/-- The consumer steps of one call of `get`, in order: the pops of the first loop,
the submissions of the second loop, and the wait on the front future when it is
live. -/
def callEvents (ser : Serialization α β) (s : PrefetchDataset ε α) (idx : Int) :
    List PoolEvent :=
  (s.get ser idx).trace.map (fun p => p.1.toPoolEvent) ++
    match s.checkIndexBounds idx with
    | .error _ => []
    | .ok _ =>
      if s.numThreads_ = 0 then []
      else
        match (addToCache idx (removeFromCache idx s).1).1.prefetchCache_ with
        | [] => []
        | f :: _ => if f.valid then [.await f.fetchIdx] else []

/-- The consumer steps of the calls `get(idxs[0]), get(idxs[1]), ...`. -/
def sessionEvents (ser : Serialization α β) :
    PrefetchDataset ε α → List Int → List PoolEvent
  | _, [] => []
  | s, idx :: rest => callEvents ser s idx ++ sessionEvents ser (s.get ser idx).state rest

/-- The guarantee in the words of the spec, "no two in-flight fetches target the
same index at the same time", for the calls `idxs` on the object `s0`: in every
schedule whose consumer steps are an initial part of the consumer steps of these
calls, the fetches submitted and not ended (waiting or running) have pairwise
distinct indices. -/
def NoTwoFetchesInFlight (ser : Serialization α β) (s0 : PrefetchDataset ε α)
    (idxs : List Int) : Prop :=
  ∀ (sched later : List PoolEvent) (p : Pool),
    consumerPart sched ++ later = sessionEvents ser s0 idxs →
    (initialPool s0).run sched = some p →
    (p.waiting ++ p.running).Nodup

/-- A schedule of the calls `get(0); get(0)` on two workers: the first call submits
0 and 1, both start, 0 ends and the call returns; the second call drops the future
for 1, submits 0 and 1 again, the free worker runs the new 0 to its end, the call
returns, and the free worker starts the new 1 while the old 1 still runs. -/
def exampleSchedule : List PoolEvent :=
  [.submit 0, .submit 1, .start, .start, .finish 0, .await 0,
   .drop 1, .submit 0, .submit 1, .start, .finish 0, .await 0, .start]

/-! ## The `while` loop combinator -/

theorem whileLoop_induct (body : σ → Option (Event × σ)) (P : σ → Prop)
    (Q : Event × σ → Prop)
    (hstep : ∀ s e s', P s → body s = some (e, s') → P s' ∧ Q (e, s')) :
    ∀ (fuel : Nat) (s : σ), P s →
      P (whileLoop body fuel s).1 ∧ ∀ p ∈ (whileLoop body fuel s).2, Q p := by
  intro fuel
  induction fuel with
  | zero => intro s hs; simp [whileLoop, hs]
  | succ n ih =>
    intro s hs
    cases hb : body s with
    | none => simp [whileLoop, hb, hs]
    | some p =>
      obtain ⟨e, s'⟩ := p
      have h1 := hstep s e s' hs hb
      have h2 := ih s' h1.1
      simp only [whileLoop, hb]
      refine ⟨h2.1, ?_⟩
      intro p hp
      rcases List.mem_cons.1 hp with rfl | hp
      · exact h1.2
      · exact h2.2 p hp

theorem whileLoop_exit (body : σ → Option (Event × σ)) (μ : σ → Nat)
    (hdec : ∀ s e s', body s = some (e, s') → μ s' < μ s) :
    ∀ (fuel : Nat) (s : σ), μ s ≤ fuel → body (whileLoop body fuel s).1 = none := by
  intro fuel
  induction fuel with
  | zero =>
    intro s hs
    cases hb : body s with
    | none => simp [whileLoop, hb]
    | some p =>
      obtain ⟨e, s'⟩ := p
      have := hdec s e s' hb
      omega
  | succ n ih =>
    intro s hs
    cases hb : body s with
    | none => simp [whileLoop, hb]
    | some p =>
      obtain ⟨e, s'⟩ := p
      have := hdec s e s' hb
      simp only [whileLoop, hb]
      exact ih s' (by omega)

theorem whileLoop_trace_length (body : σ → Option (Event × σ)) :
    ∀ (fuel : Nat) (s : σ), (whileLoop body fuel s).2.length ≤ fuel := by
  intro fuel
  induction fuel with
  | zero => intro s; simp [whileLoop]
  | succ n ih =>
    intro s
    cases hb : body s with
    | none => simp [whileLoop, hb]
    | some p =>
      obtain ⟨e, s'⟩ := p
      simp only [whileLoop, hb, List.length_cons]
      have := ih s'
      omega

/-! ## The two loop bodies -/

theorem removeFromCacheBody_eq_some {idx : Int} {s s' : PrefetchDataset ε α} {e : Event}
    (h : removeFromCacheBody idx s = some (e, s')) :
    ∃ f rest, s.prefetchCache_ = f :: rest ∧ idx ≠ s.curIdx_ ∧ e = .pop f ∧
      s' = { s with prefetchCache_ := rest, curIdx_ := s.curIdx_ + 1 } := by
  unfold removeFromCacheBody at h
  split at h
  · simp at h
  · next f rest hq =>
    split at h
    · next hne =>
      simp only [Option.some.injEq, Prod.mk.injEq] at h
      exact ⟨f, rest, hq, hne, h.1.symm, h.2.symm⟩
    · simp at h

theorem removeFromCacheBody_eq_none {idx : Int} {s : PrefetchDataset ε α}
    (h : removeFromCacheBody idx s = none) :
    s.prefetchCache_ = [] ∨ idx = s.curIdx_ := by
  unfold removeFromCacheBody at h
  split at h
  · next hq => exact Or.inl hq
  · split at h
    · simp at h
    · next hne => exact Or.inr (not_not.1 hne)

theorem addToCacheBody_eq_some {idx : Int} {s s' : PrefetchDataset ε α} {e : Event}
    (h : addToCacheBody idx s = some (e, s')) :
    (s.prefetchCache_.length : Int) < s.prefetchSize_ ∧
      idx + s.prefetchCache_.length < s.size ∧
      e = .enqueue (idx + s.prefetchCache_.length) ∧
      s' = { s with prefetchCache_ := s.prefetchCache_ ++
        [{ fetchIdx := idx + s.prefetchCache_.length, valid := true }] } := by
  unfold addToCacheBody at h
  split at h
  · next hlt =>
    simp only at h
    split at h
    · simp at h
    · next hge =>
      simp only [Option.some.injEq, Prod.mk.injEq] at h
      exact ⟨hlt, not_le.1 hge, h.1.symm, h.2.symm⟩
  · simp at h

theorem addToCacheBody_eq_none {idx : Int} {s : PrefetchDataset ε α}
    (h : addToCacheBody idx s = none) :
    s.prefetchSize_ ≤ s.prefetchCache_.length ∨ s.size ≤ idx + s.prefetchCache_.length := by
  unfold addToCacheBody at h
  split at h
  · simp only at h
    split at h
    · next hge => exact Or.inr hge
    · simp at h
  · next hlt => exact Or.inl (not_lt.1 hlt)

/-! ## Members that `get` never assigns -/

theorem SameConfig.refl (s : PrefetchDataset ε α) : SameConfig s s :=
  ⟨rfl, rfl, rfl, rfl⟩

theorem SameConfig.trans {s t u : PrefetchDataset ε α} (h1 : SameConfig s t)
    (h2 : SameConfig t u) : SameConfig s u :=
  ⟨h2.1.trans h1.1, h2.2.1.trans h1.2.1, h2.2.2.1.trans h1.2.2.1, h2.2.2.2.trans h1.2.2.2⟩

theorem SameConfig.size_eq {s t : PrefetchDataset ε α} (h : SameConfig s t) :
    t.size = s.size := by
  unfold PrefetchDataset.size
  rw [h.1]

theorem removeFromCacheBody_sameConfig {idx : Int} {s s' : PrefetchDataset ε α} {e : Event}
    (h : removeFromCacheBody idx s = some (e, s')) : SameConfig s s' := by
  obtain ⟨f, rest, -, -, -, rfl⟩ := removeFromCacheBody_eq_some h
  exact ⟨rfl, rfl, rfl, rfl⟩

theorem addToCacheBody_sameConfig {idx : Int} {s s' : PrefetchDataset ε α} {e : Event}
    (h : addToCacheBody idx s = some (e, s')) : SameConfig s s' := by
  obtain ⟨-, -, -, rfl⟩ := addToCacheBody_eq_some h
  exact ⟨rfl, rfl, rfl, rfl⟩

theorem removeFromCache_sameConfig (idx : Int) (s : PrefetchDataset ε α) :
    SameConfig s (removeFromCache idx s).1 ∧
      ∀ p ∈ (removeFromCache idx s).2, SameConfig s p.2 :=
  whileLoop_induct (removeFromCacheBody idx) (SameConfig s) (fun p => SameConfig s p.2)
    (fun _ _ _ ht hb => ⟨ht.trans (removeFromCacheBody_sameConfig hb),
      ht.trans (removeFromCacheBody_sameConfig hb)⟩) _ s (SameConfig.refl s)

theorem addToCache_sameConfig (idx : Int) (s : PrefetchDataset ε α) :
    SameConfig s (addToCache idx s).1 ∧
      ∀ p ∈ (addToCache idx s).2, SameConfig s p.2 :=
  whileLoop_induct (addToCacheBody idx) (SameConfig s) (fun p => SameConfig s p.2)
    (fun _ _ _ ht hb => ⟨ht.trans (addToCacheBody_sameConfig hb),
      ht.trans (addToCacheBody_sameConfig hb)⟩) _ s (SameConfig.refl s)

theorem addToCache_curIdx (idx : Int) (s : PrefetchDataset ε α) :
    (addToCache idx s).1.curIdx_ = s.curIdx_ :=
  (whileLoop_induct (addToCacheBody idx) (fun t => t.curIdx_ = s.curIdx_) (fun _ => True)
    (fun t e t' ht hb => by
      obtain ⟨-, -, -, rfl⟩ := addToCacheBody_eq_some hb
      exact ⟨ht, trivial⟩) _ s rfl).1

/-! ## Both loops leave by their own condition -/

theorem removeFromCache_exit (idx : Int) (s : PrefetchDataset ε α) :
    removeFromCacheBody idx (removeFromCache idx s).1 = none :=
  whileLoop_exit (removeFromCacheBody idx) (fun t => t.prefetchCache_.length)
    (fun t e t' hb => by
      obtain ⟨f, rest, hq, -, -, rfl⟩ := removeFromCacheBody_eq_some hb
      simp [hq]) _ s (le_refl _)

theorem addToCache_exit (idx : Int) (s : PrefetchDataset ε α) :
    addToCacheBody idx (addToCache idx s).1 = none :=
  whileLoop_exit (addToCacheBody idx)
    (fun t => (t.prefetchSize_ - t.prefetchCache_.length).toNat)
    (fun t e t' hb => by
      obtain ⟨hlt, -, -, rfl⟩ := addToCacheBody_eq_some hb
      simp only [List.length_append, List.length_singleton, Nat.cast_add, Nat.cast_one]
      omega) _ s (le_refl _)

/-- After the second loop the queue is not empty, for an index in range and a
positive `prefetchSize_`. -/
theorem addToCache_ne_nil (idx : Int) (s : PrefetchDataset ε α) (hidx : idx < s.size)
    (hw : 0 < s.prefetchSize_) : (addToCache idx s).1.prefetchCache_ ≠ [] := by
  intro hnil
  have hc := (addToCache_sameConfig idx s).1
  rcases addToCacheBody_eq_none (addToCache_exit idx s) with h | h
  · rw [hc.2.2.1, hnil] at h
    simp at h
    omega
  · rw [hc.size_eq, hnil] at h
    simp at h
    omega

/-! ## The queue targets consecutive indices -/

theorem Targets.append {c : Int} {q : List PendingFetch} (h : Targets c q) (v : Bool) :
    Targets c (q ++ [{ fetchIdx := c + q.length, valid := v }]) := by
  induction q generalizing c with
  | nil => simp [Targets]
  | cons f q ih =>
    obtain ⟨hf, hq⟩ := h
    refine ⟨hf, ?_⟩
    have := ih hq
    simp only [List.length_cons, Nat.cast_add, Nat.cast_one]
    rw [show c + ((q.length : Int) + 1) = c + 1 + q.length by ring]
    exact this

theorem removeFromCache_targets (idx : Int) (s : PrefetchDataset ε α)
    (h : Targets s.curIdx_ s.prefetchCache_) :
    Targets idx (removeFromCache idx s).1.prefetchCache_ := by
  have hP : Targets (removeFromCache idx s).1.curIdx_ (removeFromCache idx s).1.prefetchCache_ :=
    (whileLoop_induct (removeFromCacheBody idx)
      (fun t => Targets t.curIdx_ t.prefetchCache_) (fun _ => True)
      (fun t e t' ht hb => by
        obtain ⟨f, rest, hq, -, -, rfl⟩ := removeFromCacheBody_eq_some hb
        have ht' : Targets t.curIdx_ t.prefetchCache_ := ht
        rw [hq] at ht'
        exact ⟨ht'.2, trivial⟩) s.prefetchCache_.length s h).1
  rcases removeFromCacheBody_eq_none (removeFromCache_exit idx s) with h0 | h0
  · rw [h0]; trivial
  · rw [← h0] at hP
    exact hP

theorem removeFromCache_allValid (idx : Int) (s : PrefetchDataset ε α)
    (h : AllValid s.prefetchCache_) : AllValid (removeFromCache idx s).1.prefetchCache_ :=
  (whileLoop_induct (removeFromCacheBody idx)
    (fun t => AllValid t.prefetchCache_) (fun _ => True)
    (fun t e t' ht hb => by
      obtain ⟨f, rest, hq, -, -, rfl⟩ := removeFromCacheBody_eq_some hb
      have ht' : AllValid t.prefetchCache_ := ht
      rw [hq] at ht'
      exact ⟨fun g hg => ht' g (List.mem_cons_of_mem _ hg), trivial⟩)
    s.prefetchCache_.length s h).1

theorem addToCache_targets (idx : Int) (s : PrefetchDataset ε α)
    (h : Targets idx s.prefetchCache_) : Targets idx (addToCache idx s).1.prefetchCache_ :=
  (whileLoop_induct (addToCacheBody idx)
    (fun t => Targets idx t.prefetchCache_) (fun _ => True)
    (fun t e t' ht hb => by
      obtain ⟨-, -, -, rfl⟩ := addToCacheBody_eq_some hb
      exact ⟨ht.append true, trivial⟩) _ s h).1

theorem addToCache_allValid (idx : Int) (s : PrefetchDataset ε α)
    (h : AllValid s.prefetchCache_) : AllValid (addToCache idx s).1.prefetchCache_ :=
  (whileLoop_induct (addToCacheBody idx)
    (fun t => AllValid t.prefetchCache_) (fun _ => True)
    (fun t e t' ht hb => by
      obtain ⟨-, -, -, rfl⟩ := addToCacheBody_eq_some hb
      refine ⟨fun g hg => ?_, trivial⟩
      rcases List.mem_append.1 hg with hg | hg
      · exact ht g hg
      · rw [List.mem_singleton.1 hg]) _ s h).1

/-! ## The three paths through `get` -/

theorem get_of_out_of_range (ser : Serialization α β) (s : PrefetchDataset ε α) (idx : Int)
    (h : ¬(0 ≤ idx ∧ idx < s.size)) :
    s.get ser idx = { outcome := .error .out_of_range, state := s, trace := [] } := by
  unfold PrefetchDataset.get PrefetchDataset.checkIndexBounds
  simp only [ge_iff_le]
  rw [if_pos h]

theorem get_of_passthrough (ser : Serialization α β) (s : PrefetchDataset ε α) (idx : Int)
    (h0 : 0 ≤ idx) (h1 : idx < s.size) (hn : s.numThreads_ = 0) :
    s.get ser idx = { outcome := directGet s.dataset_ idx, state := s, trace := [] } := by
  unfold PrefetchDataset.get PrefetchDataset.checkIndexBounds directGet
  simp only [ge_iff_le]
  rw [if_neg (not_not.2 ⟨h0, h1⟩)]
  simp only [hn, if_true]
  cases s.dataset_.get idx <;> rfl

theorem get_of_prefetch (ser : Serialization α β) (s : PrefetchDataset ε α) (idx : Int)
    (h0 : 0 ≤ idx) (h1 : idx < s.size) (hn : s.numThreads_ ≠ 0) :
    s.get ser idx = serveFront ser idx (addToCache idx (removeFromCache idx s).1).1
      ((removeFromCache idx s).2 ++ (addToCache idx (removeFromCache idx s).1).2) := by
  unfold PrefetchDataset.get PrefetchDataset.checkIndexBounds
  simp only [ge_iff_le]
  rw [if_neg (not_not.2 ⟨h0, h1⟩)]
  simp only [hn, if_false]

theorem serveFront_sameConfig (ser : Serialization α β) (idx : Int) (t : PrefetchDataset ε α)
    (tr : List (Event × PrefetchDataset ε α)) : SameConfig t (serveFront ser idx t tr).state := by
  unfold serveFront
  split
  · exact SameConfig.refl t
  · split <;> exact ⟨rfl, rfl, rfl, rfl⟩

theorem serveFront_trace (ser : Serialization α β) (idx : Int) (t : PrefetchDataset ε α)
    (tr : List (Event × PrefetchDataset ε α)) : (serveFront ser idx t tr).trace = tr := by
  unfold serveFront
  split
  · rfl
  · split <;> rfl

/-- The function `get` assigns neither `dataset_`, `numThreads_`, `prefetchSize_` nor
`threadPool_`. -/
theorem get_sameConfig (ser : Serialization α β) (s : PrefetchDataset ε α) (idx : Int) :
    SameConfig s (s.get ser idx).state := by
  by_cases h : 0 ≤ idx ∧ idx < s.size
  · by_cases hn : s.numThreads_ = 0
    · rw [get_of_passthrough ser s idx h.1 h.2 hn]
      exact SameConfig.refl s
    · rw [get_of_prefetch ser s idx h.1 h.2 hn]
      exact ((removeFromCache_sameConfig idx s).1.trans (addToCache_sameConfig idx _).1).trans
        (serveFront_sameConfig ser idx _ _)
  · rw [get_of_out_of_range ser s idx h]
    exact SameConfig.refl s

/-! ## Calls on a queue that targets consecutive indices from `curIdx_` -/

/-- After both loops the front of the queue is a live future for `idx`, when the
queue before the call targeted `curIdx_, curIdx_ + 1, ...` with live futures. -/
theorem refilled_front (s : PrefetchDataset ε α) (idx : Int) (h1 : idx < s.size)
    (hw : 0 < s.prefetchSize_) (ht : Targets s.curIdx_ s.prefetchCache_)
    (hv : AllValid s.prefetchCache_) :
    ∃ rest, (addToCache idx (removeFromCache idx s).1).1.prefetchCache_ =
        { fetchIdx := idx, valid := true } :: rest ∧
      Targets (idx + 1) rest ∧ AllValid rest := by
  have hc := (removeFromCache_sameConfig idx s).1
  have hT := addToCache_targets idx _ (removeFromCache_targets idx s ht)
  have hV := addToCache_allValid idx _ (removeFromCache_allValid idx s hv)
  have hne := addToCache_ne_nil idx (removeFromCache idx s).1
    (by rw [hc.size_eq]; exact h1) (by rw [hc.2.2.1]; exact hw)
  cases hq : (addToCache idx (removeFromCache idx s).1).1.prefetchCache_ with
  | nil => exact absurd hq hne
  | cons f rest =>
    rw [hq] at hT hV
    refine ⟨rest, ?_, hT.2, fun g hg => hV g (List.mem_cons_of_mem _ hg)⟩
    have h3 : f.fetchIdx = idx := hT.1
    have h4 : f.valid = true := hV f (List.mem_cons_self _ _)
    cases f
    simp only at h3 h4
    rw [h3, h4]

theorem get_synced_ok (ser : Serialization α β) (s : PrefetchDataset ε α) (idx : Int)
    (h0 : 0 ≤ idx) (h1 : idx < s.size) (hn : s.numThreads_ ≠ 0) (hw : 0 < s.prefetchSize_)
    (ht : Targets s.curIdx_ s.prefetchCache_) (hv : AllValid s.prefetchCache_)
    (a : α) (ha : s.dataset_.get idx = .ok a) :
    (s.get ser idx).outcome = .ok (ser.load (ser.save a)) ∧
      (s.get ser idx).state.curIdx_ = idx + 1 ∧
      Targets (s.get ser idx).state.curIdx_ (s.get ser idx).state.prefetchCache_ ∧
      AllValid (s.get ser idx).state.prefetchCache_ := by
  obtain ⟨rest, hq, hT, hV⟩ := refilled_front s idx h1 hw ht hv
  have hd : (addToCache idx (removeFromCache idx s).1).1.dataset_ = s.dataset_ :=
    ((removeFromCache_sameConfig idx s).1.trans (addToCache_sameConfig idx _).1).1
  rw [get_of_prefetch ser s idx h0 h1 hn]
  unfold serveFront
  rw [hq]
  simp only [PendingFetch.get, fetchTask, hd, ha, if_true]
  exact ⟨trivial, trivial, hT, hV⟩

theorem get_synced_error (ser : Serialization α β) (s : PrefetchDataset ε α) (idx : Int)
    (h0 : 0 ≤ idx) (h1 : idx < s.size) (hn : s.numThreads_ ≠ 0) (hw : 0 < s.prefetchSize_)
    (ht : Targets s.curIdx_ s.prefetchCache_) (hv : AllValid s.prefetchCache_)
    (e : ε) (he : s.dataset_.get idx = .error e) :
    (s.get ser idx).outcome = .error (.fetch e) := by
  obtain ⟨rest, hq, -, -⟩ := refilled_front s idx h1 hw ht hv
  have hd : (addToCache idx (removeFromCache idx s).1).1.dataset_ = s.dataset_ :=
    ((removeFromCache_sameConfig idx s).1.trans (addToCache_sameConfig idx _).1).1
  rw [get_of_prefetch ser s idx h0 h1 hn]
  unfold serveFront
  rw [hq]
  simp only [PendingFetch.get, fetchTask, hd, he, if_true]

/-- A call that does not throw an exception of the dataset keeps the queue
targeting `curIdx_, curIdx_ + 1, ...` with live futures. -/
theorem get_keeps_synced (ser : Serialization α β) (s : PrefetchDataset ε α) (idx : Int)
    (hw : 0 < s.prefetchSize_)
    (ht : Targets s.curIdx_ s.prefetchCache_) (hv : AllValid s.prefetchCache_)
    (hne : ∀ e, (s.get ser idx).outcome ≠ .error (.fetch e)) :
    Targets (s.get ser idx).state.curIdx_ (s.get ser idx).state.prefetchCache_ ∧
      AllValid (s.get ser idx).state.prefetchCache_ := by
  by_cases h : 0 ≤ idx ∧ idx < s.size
  · by_cases hn : s.numThreads_ = 0
    · rw [get_of_passthrough ser s idx h.1 h.2 hn]
      exact ⟨ht, hv⟩
    · cases ha : s.dataset_.get idx with
      | ok a => exact (get_synced_ok ser s idx h.1 h.2 hn hw ht hv a ha).2.2
      | error e => exact absurd (get_synced_error ser s idx h.1 h.2 hn hw ht hv e ha) (hne e)
  · rw [get_of_out_of_range ser s idx h]
    exact ⟨ht, hv⟩

theorem ReachableNoFetchError.synced {ser : Serialization α β} {s0 s : PrefetchDataset ε α}
    (hr : ReachableNoFetchError ser s0 s) (hw : 0 < s0.prefetchSize_)
    (ht : Targets s0.curIdx_ s0.prefetchCache_) (hv : AllValid s0.prefetchCache_) :
    SameConfig s0 s ∧ Targets s.curIdx_ s.prefetchCache_ ∧ AllValid s.prefetchCache_ := by
  induction hr with
  | start => exact ⟨SameConfig.refl s0, ht, hv⟩
  | call idx _ hne ih =>
    obtain ⟨hc, hT, hV⟩ := ih
    exact ⟨hc.trans (get_sameConfig ser _ idx),
      get_keeps_synced ser _ idx (by rw [hc.2.2.1]; exact hw) hT hV hne⟩

theorem new_ok (ds : Dataset ε α) (numThreads prefetchSize : Int)
    (h : (0 < numThreads ∧ 0 < prefetchSize) ∨ (numThreads = 0 ∧ prefetchSize = 0)) :
    PrefetchDataset.new (some ds) numThreads prefetchSize =
      .ok { dataset_ := ds
            numThreads_ := numThreads
            prefetchSize_ := prefetchSize
            curIdx_ := -1
            prefetchCache_ := []
            threadPool_ := if numThreads > 0 then some ⟨numThreads⟩ else none } := by
  unfold PrefetchDataset.new
  simp only [gt_iff_lt]
  rw [if_neg]
  rintro ⟨h1, h2⟩
  rcases h with h | h
  · exact h1 h
  · exact h2 h

/-! ## Sessions on a cache whose queue targets consecutive indices -/

theorem session_synced (ser : Serialization α β) (hser : ∀ a, ser.load (ser.save a) = a)
    (idxs : List Int) :
    ∀ s : PrefetchDataset ε α, s.numThreads_ ≠ 0 → 0 < s.prefetchSize_ →
      Targets s.curIdx_ s.prefetchCache_ → AllValid s.prefetchCache_ →
      (∀ i, 0 ≤ i → i < s.size → ∃ a, s.dataset_.get i = .ok a) →
      (∀ i ∈ idxs, 0 ≤ i ∧ i < s.size) →
      session ser s idxs = directSession s.dataset_ idxs := by
  induction idxs with
  | nil => intro s _ _ _ _ _ _; rfl
  | cons idx rest ih =>
    intro s hn hw ht hv hsrc hidx
    obtain ⟨h0, h1⟩ := hidx idx (List.mem_cons_self _ _)
    obtain ⟨a, ha⟩ := hsrc idx h0 h1
    obtain ⟨ho, -, hT, hV⟩ := get_synced_ok ser s idx h0 h1 hn hw ht hv a ha
    have hc := get_sameConfig ser s idx
    have hrest := ih (s.get ser idx).state (by rw [hc.2.1]; exact hn)
      (by rw [hc.2.2.1]; exact hw) hT hV
      (by rw [hc.size_eq, hc.1]; exact hsrc)
      (by rw [hc.size_eq]; exact fun i hi => hidx i (List.mem_cons_of_mem _ hi))
    simp only [session, directSession, List.map_cons]
    rw [hrest, ho, hser a, hc.1]
    simp only [directSession, directGet, ha]

/-! ## Length of the queue -/

theorem removeFromCache_length_le (idx : Int) (s : PrefetchDataset ε α) (W : Int)
    (h : (s.prefetchCache_.length : Int) ≤ W) :
    ((removeFromCache idx s).1.prefetchCache_.length : Int) ≤ W ∧
      ∀ p ∈ (removeFromCache idx s).2, (p.2.prefetchCache_.length : Int) ≤ W :=
  whileLoop_induct (removeFromCacheBody idx)
    (fun t => (t.prefetchCache_.length : Int) ≤ W)
    (fun p => (p.2.prefetchCache_.length : Int) ≤ W)
    (fun t e t' ht hb => by
      obtain ⟨f, rest, hq, -, -, rfl⟩ := removeFromCacheBody_eq_some hb
      have ht' : (t.prefetchCache_.length : Int) ≤ W := ht
      rw [hq] at ht'
      simp only [List.length_cons, Nat.cast_add, Nat.cast_one] at ht'
      constructor <;> (show (rest.length : Int) ≤ W) <;> omega) _ s h

theorem addToCache_length_le (idx : Int) (s : PrefetchDataset ε α)
    (h : (s.prefetchCache_.length : Int) ≤ s.prefetchSize_) :
    ((addToCache idx s).1.prefetchCache_.length : Int) ≤ s.prefetchSize_ ∧
      ∀ p ∈ (addToCache idx s).2, (p.2.prefetchCache_.length : Int) ≤ s.prefetchSize_ := by
  have key := whileLoop_induct (addToCacheBody idx)
    (fun t => t.prefetchSize_ = s.prefetchSize_ ∧
      (t.prefetchCache_.length : Int) ≤ s.prefetchSize_)
    (fun p => (p.2.prefetchCache_.length : Int) ≤ s.prefetchSize_)
    (fun t e t' ht hb => by
      obtain ⟨hlt, -, -, rfl⟩ := addToCacheBody_eq_some hb
      have ht' : t.prefetchSize_ = s.prefetchSize_ := ht.1
      have hlen : ((t.prefetchCache_ ++
          [PendingFetch.mk (idx + t.prefetchCache_.length) true]).length : Int) ≤
          s.prefetchSize_ := by
        simp only [List.length_append, List.length_singleton, Nat.cast_add, Nat.cast_one]
        omega
      exact ⟨⟨ht', hlen⟩, hlen⟩)
    (s.prefetchSize_ - s.prefetchCache_.length).toNat s ⟨rfl, h⟩
  exact ⟨key.1.2, key.2⟩

theorem serveFront_length_le (ser : Serialization α β) (idx : Int) (t : PrefetchDataset ε α)
    (tr : List (Event × PrefetchDataset ε α)) :
    (serveFront ser idx t tr).state.prefetchCache_.length ≤ t.prefetchCache_.length := by
  unfold serveFront
  split
  · exact le_refl _
  · next f rest hq =>
    split <;> simp [hq]

/-- One call of `get` never lets the queue grow beyond `prefetchSize_`: not after an
iteration of either loop, and not at its end. -/
theorem get_length_le (ser : Serialization α β) (s : PrefetchDataset ε α) (idx : Int)
    (h : (s.prefetchCache_.length : Int) ≤ s.prefetchSize_) :
    (∀ p ∈ (s.get ser idx).trace, (p.2.prefetchCache_.length : Int) ≤ s.prefetchSize_) ∧
      ((s.get ser idx).state.prefetchCache_.length : Int) ≤ s.prefetchSize_ := by
  by_cases hi : 0 ≤ idx ∧ idx < s.size
  · by_cases hn : s.numThreads_ = 0
    · rw [get_of_passthrough ser s idx hi.1 hi.2 hn]
      exact ⟨fun p hp => by simp at hp, h⟩
    · rw [get_of_prefetch ser s idx hi.1 hi.2 hn, serveFront_trace]
      have h1 := removeFromCache_length_le idx s s.prefetchSize_ h
      have hc := (removeFromCache_sameConfig idx s).1
      have h2 := addToCache_length_le idx (removeFromCache idx s).1
        (by rw [hc.2.2.1]; exact h1.1)
      rw [hc.2.2.1] at h2
      refine ⟨fun p hp => ?_, ?_⟩
      · rcases List.mem_append.1 hp with hp | hp
        · exact h1.2 p hp
        · exact h2.2 p hp
      · have h3 := serveFront_length_le ser idx (addToCache idx (removeFromCache idx s).1).1
          ((removeFromCache idx s).2 ++ (addToCache idx (removeFromCache idx s).1).2)
        have h4 := h2.1
        omega
  · rw [get_of_out_of_range ser s idx hi]
    exact ⟨fun p hp => by simp at hp, h⟩

/-! ## Tasks handed to the thread pool -/

theorem removeFromCache_events (idx : Int) (s : PrefetchDataset ε α) :
    ∀ p ∈ (removeFromCache idx s).2, ∃ f, p.1 = Event.pop f :=
  (whileLoop_induct (removeFromCacheBody idx) (fun _ => True)
    (fun p => ∃ f, p.1 = Event.pop f)
    (fun t e t' _ hb => by
      obtain ⟨f, rest, -, -, he, -⟩ := removeFromCacheBody_eq_some hb
      exact ⟨trivial, f, he⟩) _ s trivial).2

theorem addToCache_events (idx : Int) (s : PrefetchDataset ε α) :
    ∀ p ∈ (addToCache idx s).2, ∃ j, p.1 = Event.enqueue j ∧ idx ≤ j ∧ j < s.size :=
  (whileLoop_induct (addToCacheBody idx) (fun t => t.size = s.size)
    (fun p => ∃ j, p.1 = Event.enqueue j ∧ idx ≤ j ∧ j < s.size)
    (fun t e t' ht hb => by
      obtain ⟨-, hlt, he, rfl⟩ := addToCacheBody_eq_some hb
      have ht' : t.size = s.size := ht
      refine ⟨ht', idx + t.prefetchCache_.length, he, ?_, ?_⟩
      · omega
      · rw [← ht']; exact hlt) _ s rfl).2

/-- Every task that a call of `get` hands to the thread pool fetches an index in
`[idx, size())`, from any state whatever. -/
theorem submitted_in_range (ser : Serialization α β) (s : PrefetchDataset ε α) (idx : Int) :
    ∀ i ∈ (s.get ser idx).submitted, 0 ≤ i ∧ idx ≤ i ∧ i < s.size := by
  intro i hi
  by_cases h : 0 ≤ idx ∧ idx < s.size
  · by_cases hn : s.numThreads_ = 0
    · rw [get_of_passthrough ser s idx h.1 h.2 hn] at hi
      simp [GetResult.submitted] at hi
    · rw [get_of_prefetch ser s idx h.1 h.2 hn] at hi
      unfold GetResult.submitted at hi
      rw [serveFront_trace] at hi
      obtain ⟨p, hp, hpi⟩ := List.mem_filterMap.1 hi
      rcases List.mem_append.1 hp with hp | hp
      · obtain ⟨f, hf⟩ := removeFromCache_events idx s p hp
        rw [hf] at hpi
        simp at hpi
      · obtain ⟨j, hj, hj0, hj1⟩ := addToCache_events idx (removeFromCache idx s).1 p hp
        rw [hj] at hpi
        simp only [Option.some.injEq] at hpi
        rw [(removeFromCache_sameConfig idx s).1.size_eq] at hj1
        subst hpi
        exact ⟨by omega, hj0, hj1⟩
  · rw [get_of_out_of_range ser s idx h] at hi
    simp [GetResult.submitted] at hi

/-! ## Reachable states -/

theorem Reachable.sameConfig {ser : Serialization α β} {s0 s : PrefetchDataset ε α}
    (hr : Reachable ser s0 s) : SameConfig s0 s := by
  induction hr with
  | start => exact SameConfig.refl s0
  | call idx _ ih => exact ih.trans (get_sameConfig ser _ idx)

theorem Reachable.length_le {ser : Serialization α β} {s0 s : PrefetchDataset ε α}
    (hr : Reachable ser s0 s) (h0 : (s0.prefetchCache_.length : Int) ≤ s0.prefetchSize_) :
    (s.prefetchCache_.length : Int) ≤ s0.prefetchSize_ := by
  induction hr with
  | start => exact h0
  | call idx hr ih =>
    have hc := hr.sameConfig
    have := (get_length_le ser _ idx (by rw [hc.2.2.1]; exact ih)).2
    rw [hc.2.2.1] at this
    exact this

theorem new_eq_ok {ds : Dataset ε α} {numThreads prefetchSize : Int} {s0 : PrefetchDataset ε α}
    (h : PrefetchDataset.new (some ds) numThreads prefetchSize = .ok s0)
    (hn : 0 < numThreads) (hw : 0 < prefetchSize) :
    s0.dataset_ = ds ∧ s0.numThreads_ = numThreads ∧ s0.prefetchSize_ = prefetchSize ∧
      s0.curIdx_ = -1 ∧ s0.prefetchCache_ = [] := by
  rw [new_ok ds numThreads prefetchSize (Or.inl ⟨hn, hw⟩)] at h
  cases h
  exact ⟨rfl, rfl, rfl, rfl, rfl⟩

theorem futureGet_ne_out_of_range (ser : Serialization α β) (ds : Dataset ε α)
    (f : PendingFetch) : f.get ser ds ≠ .error .out_of_range := by
  unfold PendingFetch.get
  split
  · split <;> simp
  · simp

theorem serveFront_ne_out_of_range (ser : Serialization α β) (idx : Int)
    (t : PrefetchDataset ε α) (tr : List (Event × PrefetchDataset ε α)) :
    (serveFront ser idx t tr).outcome ≠ .error .out_of_range := by
  unfold serveFront
  split
  · simp
  · next f rest hq =>
    split
    · simp
    · next e he =>
      intro h
      simp only [Except.error.injEq] at h
      rw [h] at he
      exact futureGet_ne_out_of_range ser t.dataset_ f he

theorem directGet_ne_out_of_range (ds : Dataset ε α) (idx : Int) :
    directGet ds idx ≠ .error .out_of_range := by
  unfold directGet
  split <;> simp

theorem session_passthrough (ser : Serialization α β) (s : PrefetchDataset ε α)
    (hn : s.numThreads_ = 0) (idxs : List Int) (hidx : ∀ i ∈ idxs, 0 ≤ i ∧ i < s.size) :
    session ser s idxs = directSession s.dataset_ idxs ∧ runCalls ser s idxs = s := by
  induction idxs with
  | nil => exact ⟨rfl, rfl⟩
  | cons idx rest ih =>
    obtain ⟨h0, h1⟩ := hidx idx (List.mem_cons_self _ _)
    have hrest := ih (fun i hi => hidx i (List.mem_cons_of_mem _ hi))
    simp only [session, runCalls, directSession, List.map_cons]
    rw [get_of_passthrough ser s idx h0 h1 hn]
    exact ⟨by rw [hrest.1]; rfl, hrest.2⟩

/-! ## The path on which `front().get()` throws -/

/-- When `get` throws an exception of the source in prefetch mode, the queue it
leaves is the queue built by the two loops, with the future at its front now
without shared state, and `curIdx_` is the value the first loop left: neither
`pop()` nor `curIdx_ = idx + 1` has run. -/
theorem get_fetch_error_state (ser : Serialization α β) (s : PrefetchDataset ε α) (idx : Int)
    (h0 : 0 ≤ idx) (h1 : idx < s.size) (hn : s.numThreads_ ≠ 0) (e : ε)
    (he : (s.get ser idx).outcome = .error (.fetch e)) :
    ∃ i rest, (addToCache idx (removeFromCache idx s).1).1.prefetchCache_ =
        { fetchIdx := i, valid := true } :: rest ∧
      s.dataset_.get i = .error e ∧
      (s.get ser idx).state.prefetchCache_ = { fetchIdx := i, valid := false } :: rest ∧
      (s.get ser idx).state.curIdx_ = (removeFromCache idx s).1.curIdx_ := by
  have hd : (addToCache idx (removeFromCache idx s).1).1.dataset_ = s.dataset_ :=
    ((removeFromCache_sameConfig idx s).1.trans (addToCache_sameConfig idx _).1).1
  have hcur := addToCache_curIdx idx (removeFromCache idx s).1
  rw [get_of_prefetch ser s idx h0 h1 hn] at he ⊢
  unfold serveFront at he ⊢
  cases hq : (addToCache idx (removeFromCache idx s).1).1.prefetchCache_ with
  | nil =>
    rw [hq] at he
    simp at he
  | cons f rest =>
    rw [hq] at he
    simp only at he ⊢
    obtain ⟨i, v⟩ := f
    rw [hd] at he ⊢
    cases v with
    | false => simp [PendingFetch.get] at he
    | true =>
      cases hg : s.dataset_.get i with
      | ok a => simp [PendingFetch.get, fetchTask, hg] at he
      | error e' =>
        simp only [PendingFetch.get, fetchTask, hg, if_true, Except.error.injEq,
          Err.fetch.injEq] at he
        subst he
        simp only [PendingFetch.get, fetchTask, hg, if_true]
        exact ⟨i, rest, rfl, hg, rfl, hcur⟩

/-! ## Fuel -/

/-- Any fuel above the loop measure gives the same run. -/
theorem whileLoop_fuel (body : σ → Option (Event × σ)) (μ : σ → Nat)
    (hdec : ∀ s e s', body s = some (e, s') → μ s' < μ s) :
    ∀ (fuel1 fuel2 : Nat) (s : σ), μ s ≤ fuel1 → μ s ≤ fuel2 →
      whileLoop body fuel1 s = whileLoop body fuel2 s := by
  intro fuel1
  induction fuel1 with
  | zero =>
    intro fuel2 s h1 _
    have hb : body s = none := by
      cases hb : body s with
      | none => rfl
      | some p =>
        obtain ⟨e, s'⟩ := p
        have := hdec s e s' hb
        omega
    cases fuel2 with
    | zero => rfl
    | succ m => simp [whileLoop, hb]
  | succ n ih =>
    intro fuel2 s h1 h2
    cases hb : body s with
    | none =>
      cases fuel2 with
      | zero => simp [whileLoop, hb]
      | succ m => simp [whileLoop, hb]
    | some p =>
      obtain ⟨e, s'⟩ := p
      have hlt := hdec s e s' hb
      cases fuel2 with
      | zero => omega
      | succ m =>
        simp only [whileLoop, hb]
        rw [ih m s' (by omega) (by omega)]

theorem removeFromCacheBody_decreases (idx : Int) (t t' : PrefetchDataset ε α) (e : Event)
    (hb : removeFromCacheBody idx t = some (e, t')) :
    t'.prefetchCache_.length < t.prefetchCache_.length := by
  obtain ⟨f, rest, hq, -, -, rfl⟩ := removeFromCacheBody_eq_some hb
  simp [hq]

theorem addToCacheBody_decreases (idx : Int) (t t' : PrefetchDataset ε α) (e : Event)
    (hb : addToCacheBody idx t = some (e, t')) :
    (t'.prefetchSize_ - t'.prefetchCache_.length).toNat <
      (t.prefetchSize_ - t.prefetchCache_.length).toNat := by
  obtain ⟨hlt, -, -, rfl⟩ := addToCacheBody_eq_some hb
  simp only [List.length_append, List.length_singleton, Nat.cast_add, Nat.cast_one]
  omega

/-! ## What the first loop drops -/

theorem reconcileCount_nil (c idx : Int) : reconcileCount c idx 0 = 0 := by
  unfold reconcileCount
  split
  · omega
  · rfl

theorem reconcileCount_eq (idx : Int) (L : Nat) : reconcileCount idx idx (L + 1) = 0 := by
  unfold reconcileCount
  split
  · simp
  · next h => exact absurd ⟨le_refl idx, by push_cast; omega⟩ h

theorem reconcileCount_ne (c idx : Int) (L : Nat) (h : idx ≠ c) :
    reconcileCount c idx (L + 1) = reconcileCount (c + 1) idx L + 1 := by
  unfold reconcileCount
  push_cast
  split <;> split <;> omega

theorem reconcileCount_le (c idx : Int) (L : Nat) : reconcileCount c idx L ≤ L := by
  unfold reconcileCount
  split <;> omega

/-- The first loop, run with enough fuel on a queue `q` with base index `c`, drops
the first `reconcileCount c idx q.length` futures, advances `curIdx_` by one with
each, and leaves the rest of the queue. -/
theorem whileLoop_remove (idx : Int) :
    ∀ (q : List PendingFetch) (s : PrefetchDataset ε α) (fuel : Nat),
      s.prefetchCache_ = q → q.length ≤ fuel →
      (whileLoop (removeFromCacheBody idx) fuel s).1 =
          { s with curIdx_ := s.curIdx_ + reconcileCount s.curIdx_ idx q.length
                   prefetchCache_ := q.drop (reconcileCount s.curIdx_ idx q.length) } ∧
        (whileLoop (removeFromCacheBody idx) fuel s).2.map Prod.fst =
          (q.take (reconcileCount s.curIdx_ idx q.length)).map Event.pop ∧
        ∀ (j : Nat) (p : Event × PrefetchDataset ε α),
          (whileLoop (removeFromCacheBody idx) fuel s).2[j]? = some p →
            p.2.curIdx_ = s.curIdx_ + (j + 1 : Nat) ∧
              p.2.prefetchCache_ = q.drop (j + 1) := by
  intro q
  induction q with
  | nil =>
    intro s fuel hq _
    have hb : removeFromCacheBody idx s = none := by
      unfold removeFromCacheBody
      rw [hq]
    have hrun : whileLoop (removeFromCacheBody idx) fuel s = (s, []) := by
      cases fuel with
      | zero => rfl
      | succ n => simp [whileLoop, hb]
    rw [hrun]
    simp only [List.length_nil, reconcileCount_nil, Nat.cast_zero, add_zero, List.drop_nil,
      List.map_nil, List.take_nil, true_and]
    refine ⟨?_, fun j p hp => by simp at hp⟩
    cases s
    simp only at hq
    simp [hq]
  | cons f rest ih =>
    intro s fuel hq hfuel
    by_cases hne : idx = s.curIdx_
    · have hb : removeFromCacheBody idx s = none := by
        unfold removeFromCacheBody
        rw [hq]
        simp [hne]
      have hrun : whileLoop (removeFromCacheBody idx) fuel s = (s, []) := by
        cases fuel with
        | zero => rfl
        | succ n => simp [whileLoop, hb]
      rw [hrun, ← hne]
      simp only [List.length_cons, reconcileCount_eq, Nat.cast_zero, add_zero, List.drop_zero,
        List.map_nil, List.take_zero, true_and]
      refine ⟨?_, fun j p hp => by simp at hp⟩
      cases s
      simp only at hq hne
      simp [hq, hne]
    · have hb : removeFromCacheBody idx s =
          some (.pop f, { s with prefetchCache_ := rest, curIdx_ := s.curIdx_ + 1 }) := by
        unfold removeFromCacheBody
        rw [hq]
        simp [hne]
      cases fuel with
      | zero => simp at hfuel
      | succ n =>
        have hrec := ih { s with prefetchCache_ := rest, curIdx_ := s.curIdx_ + 1 } n rfl
          (by simpa using hfuel)
        simp only [whileLoop, hb, List.length_cons, reconcileCount_ne s.curIdx_ idx rest.length hne,
          List.map_cons, List.take_succ_cons, List.drop_succ_cons]
        obtain ⟨h1, h2, h3⟩ := hrec
        refine ⟨?_, ?_, ?_⟩
        · rw [h1]
          simp only [Nat.cast_add, Nat.cast_one]
          congr 1
          ring
        · rw [h2]
        · intro j p hp
          cases j with
          | zero =>
            simp only [List.getElem?_cons_zero, Option.some.injEq] at hp
            subst hp
            simp
          | succ j =>
            simp only [List.getElem?_cons_succ] at hp
            obtain ⟨h4, h5⟩ := h3 j p hp
            refine ⟨?_, by simpa using h5⟩
            rw [h4]
            push_cast
            ring

/-! ## What the second loop pushes -/

theorem intRange_length (a : Int) (n : Nat) : (intRange a n).length = n := by
  induction n generalizing a with
  | zero => rfl
  | succ n ih => simp [intRange, ih]

theorem intRange_append (a : Int) (n m : Nat) :
    intRange a n ++ intRange (a + n) m = intRange a (n + m) := by
  induction n generalizing a with
  | zero => simp [intRange]
  | succ n ih =>
    have := ih (a + 1)
    rw [show a + 1 + (n : Int) = a + ((n + 1 : Nat) : Int) by push_cast; ring] at this
    rw [show n + 1 + m = (n + m) + 1 by omega]
    simp only [intRange, List.cons_append, this]

theorem mem_intRange {a : Int} {n : Nat} {i : Int} :
    i ∈ intRange a n ↔ a ≤ i ∧ i < a + n := by
  induction n generalizing a with
  | zero =>
    simp only [intRange, List.not_mem_nil, Nat.cast_zero, add_zero, false_iff]
    omega
  | succ n ih =>
    simp only [intRange, List.mem_cons, ih]
    push_cast
    omega

theorem freshFutures_length (a : Int) (n : Nat) : (freshFutures a n).length = n := by
  simp [freshFutures, intRange_length]

theorem refillCount_full (w N idx : Int) (len : Nat) (h : w ≤ len ∨ N ≤ idx + len) :
    refillCount w N idx len = 0 := by
  unfold refillCount
  omega

theorem refillCount_succ (w N idx : Int) (len : Nat) (h1 : (len : Int) < w)
    (h2 : idx + len < N) :
    refillCount w N idx len = refillCount w N idx (len + 1) + 1 := by
  unfold refillCount
  push_cast
  omega

/-- The second loop, run with enough fuel on a queue of length `len`, pushes live
futures for `idx + len, idx + len + 1, ...`, `refillCount` of them, handing one task
to the pool for each, and changes nothing else. -/
theorem whileLoop_add (idx : Int) :
    ∀ (fuel : Nat) (s : PrefetchDataset ε α),
      (s.prefetchSize_ - s.prefetchCache_.length).toNat ≤ fuel →
      (whileLoop (addToCacheBody idx) fuel s).1 =
          { s with prefetchCache_ := (s.prefetchCache_ ++
              freshFutures (idx + s.prefetchCache_.length)
                (refillCount s.prefetchSize_ s.size idx s.prefetchCache_.length)) } ∧
        (whileLoop (addToCacheBody idx) fuel s).2.map Prod.fst =
          (intRange (idx + s.prefetchCache_.length)
            (refillCount s.prefetchSize_ s.size idx s.prefetchCache_.length)).map
              Event.enqueue := by
  intro fuel
  induction fuel with
  | zero =>
    intro s hfuel
    have h0 : refillCount s.prefetchSize_ s.size idx s.prefetchCache_.length = 0 :=
      refillCount_full _ _ _ _ (Or.inl (by omega))
    rw [h0]
    simp [whileLoop, freshFutures, intRange]
  | succ n ih =>
    intro s hfuel
    by_cases h : (s.prefetchCache_.length : Int) < s.prefetchSize_ ∧
        idx + s.prefetchCache_.length < s.size
    · have hb : addToCacheBody idx s = some (.enqueue (idx + s.prefetchCache_.length),
          { s with prefetchCache_ := s.prefetchCache_ ++
            [{ fetchIdx := idx + s.prefetchCache_.length, valid := true }] }) := by
        unfold addToCacheBody
        simp [h.1, h.2]
      have hrec := ih { s with prefetchCache_ := s.prefetchCache_ ++
            [{ fetchIdx := idx + s.prefetchCache_.length, valid := true }] }
        (by simp only [List.length_append, List.length_singleton, Nat.cast_add, Nat.cast_one]
            omega)
      simp only [List.length_append, List.length_singleton, PrefetchDataset.size] at hrec
      obtain ⟨h1, h2⟩ := hrec
      have hcnt := refillCount_succ s.prefetchSize_ s.size idx s.prefetchCache_.length h.1 h.2
      have hidx : idx + ((s.prefetchCache_.length + 1 : Nat) : Int) =
          idx + s.prefetchCache_.length + 1 := by push_cast; ring
      simp only [PrefetchDataset.size] at hcnt
      simp only [whileLoop, hb, PrefetchDataset.size, List.map_cons]
      rw [h1, h2, hcnt, hidx]
      simp [freshFutures, intRange]
    · have hb : addToCacheBody idx s = none := by
        unfold addToCacheBody
        by_cases h1 : (s.prefetchCache_.length : Int) < s.prefetchSize_
        · have h2 : s.size ≤ idx + s.prefetchCache_.length := by
            by_contra h2
            exact h ⟨h1, by omega⟩
          simp [h1, h2]
        · simp [h1]
      have h0 : refillCount s.prefetchSize_ s.size idx s.prefetchCache_.length = 0 :=
        refillCount_full _ _ _ _ (by
          by_cases h1 : (s.prefetchCache_.length : Int) < s.prefetchSize_
          · right
            by_contra h2
            exact h ⟨h1, by omega⟩
          · left
            omega)
      rw [h0]
      simp [whileLoop, hb, freshFutures, intRange]

/-! ## The events of one call -/

theorem removeFromCache_eq (idx : Int) (s : PrefetchDataset ε α) :
    (removeFromCache idx s).1 =
        { s with curIdx_ := s.curIdx_ + reconcileCount s.curIdx_ idx s.prefetchCache_.length
                 prefetchCache_ := s.prefetchCache_.drop
                   (reconcileCount s.curIdx_ idx s.prefetchCache_.length) } ∧
      (removeFromCache idx s).2.map Prod.fst =
        (s.prefetchCache_.take (reconcileCount s.curIdx_ idx s.prefetchCache_.length)).map
          Event.pop :=
  ⟨(whileLoop_remove idx s.prefetchCache_ s s.prefetchCache_.length rfl (le_refl _)).1,
   (whileLoop_remove idx s.prefetchCache_ s s.prefetchCache_.length rfl (le_refl _)).2.1⟩

theorem addToCache_eq (idx : Int) (s : PrefetchDataset ε α) :
    (addToCache idx s).1 =
        { s with prefetchCache_ := (s.prefetchCache_ ++
            freshFutures (idx + s.prefetchCache_.length)
              (refillCount s.prefetchSize_ s.size idx s.prefetchCache_.length)) } ∧
      (addToCache idx s).2.map Prod.fst =
        (intRange (idx + s.prefetchCache_.length)
          (refillCount s.prefetchSize_ s.size idx s.prefetchCache_.length)).map Event.enqueue :=
  whileLoop_add idx _ s (le_refl _)

theorem filterMap_pop_events (pops : List PendingFetch) (enqs : List Int)
    (tr : List (Event × PrefetchDataset ε α))
    (h : tr.map Prod.fst = pops.map Event.pop ++ enqs.map Event.enqueue) :
    (tr.filterMap fun p => match p.1 with
      | .pop f => some f
      | .enqueue _ => none) = pops := by
  induction pops generalizing tr with
  | nil =>
    induction enqs generalizing tr with
    | nil =>
      cases tr with
      | nil => rfl
      | cons p tr => simp at h
    | cons i enqs ih =>
      cases tr with
      | nil => simp at h
      | cons p tr =>
        simp only [List.map_cons, List.map_nil, List.nil_append, List.cons.injEq] at h
        rw [List.filterMap_cons, h.1]
        exact ih tr (by simpa using h.2)
  | cons f pops ih =>
    cases tr with
    | nil => simp at h
    | cons p tr =>
      simp only [List.map_cons, List.cons_append, List.cons.injEq] at h
      rw [List.filterMap_cons, h.1]
      simp only [List.cons.injEq, true_and]
      exact ih tr h.2

theorem filterMap_enqueue_events (pops : List PendingFetch) (enqs : List Int)
    (tr : List (Event × PrefetchDataset ε α))
    (h : tr.map Prod.fst = pops.map Event.pop ++ enqs.map Event.enqueue) :
    (tr.filterMap fun p => match p.1 with
      | .enqueue i => some i
      | .pop _ => none) = enqs := by
  induction pops generalizing tr with
  | nil =>
    induction enqs generalizing tr with
    | nil =>
      cases tr with
      | nil => rfl
      | cons p tr => simp at h
    | cons i enqs ih =>
      cases tr with
      | nil => simp at h
      | cons p tr =>
        simp only [List.map_cons, List.map_nil, List.nil_append, List.cons.injEq] at h
        rw [List.filterMap_cons, h.1]
        simp only [List.cons.injEq, true_and]
        exact ih tr (by simpa using h.2)
  | cons f pops ih =>
    cases tr with
    | nil => simp at h
    | cons p tr =>
      simp only [List.map_cons, List.cons_append, List.cons.injEq] at h
      rw [List.filterMap_cons, h.1]
      exact ih tr h.2

/-- In prefetch mode a call with a valid index drops the first
`reconcileCount curIdx_ idx L` futures of the queue (`L` its length) and hands the
pool tasks for the indices that follow the kept entries, `refillCount` of them. -/
theorem get_discarded_submitted (ser : Serialization α β) (s : PrefetchDataset ε α)
    (idx : Int) (h0 : 0 ≤ idx) (h1 : idx < s.size) (hn : s.numThreads_ ≠ 0) :
    (s.get ser idx).discarded =
        s.prefetchCache_.take (reconcileCount s.curIdx_ idx s.prefetchCache_.length) ∧
      (s.get ser idx).submitted =
        intRange
          (idx + (s.prefetchCache_.length -
            reconcileCount s.curIdx_ idx s.prefetchCache_.length : Nat))
          (refillCount s.prefetchSize_ s.size idx
            (s.prefetchCache_.length -
              reconcileCount s.curIdx_ idx s.prefetchCache_.length)) := by
  have hr := removeFromCache_eq idx s
  have ha := addToCache_eq idx (removeFromCache idx s).1
  have hev : (s.get ser idx).trace.map Prod.fst =
      (s.prefetchCache_.take (reconcileCount s.curIdx_ idx s.prefetchCache_.length)).map
          Event.pop ++
        (intRange
          (idx + (s.prefetchCache_.length -
            reconcileCount s.curIdx_ idx s.prefetchCache_.length : Nat))
          (refillCount s.prefetchSize_ s.size idx
            (s.prefetchCache_.length -
              reconcileCount s.curIdx_ idx s.prefetchCache_.length))).map Event.enqueue := by
    rw [get_of_prefetch ser s idx h0 h1 hn, serveFront_trace, List.map_append, hr.2, ha.2,
      hr.1]
    simp only [List.length_drop, PrefetchDataset.size]
  exact ⟨filterMap_pop_events _ _ _ hev, filterMap_enqueue_events _ _ _ hev⟩

/-! ## The end of `get` -/

/-- When the last part of `get` returns a sample, the queue was not empty, its
front has been popped and `curIdx_` is `idx + 1`. -/
theorem serveFront_ok (ser : Serialization α β) (idx : Int) (t : PrefetchDataset ε α)
    (tr : List (Event × PrefetchDataset ε α)) (a : α)
    (h : (serveFront ser idx t tr).outcome = .ok a) :
    ∃ f rest, t.prefetchCache_ = f :: rest ∧
      (serveFront ser idx t tr).state = { t with prefetchCache_ := rest, curIdx_ := idx + 1 } := by
  unfold serveFront at h ⊢
  cases hq : t.prefetchCache_ with
  | nil =>
    rw [hq] at h
    simp at h
  | cons f rest =>
    rw [hq] at h
    simp only at h ⊢
    cases hg : f.get ser t.dataset_ with
    | ok str => exact ⟨f, rest, rfl, rfl⟩
    | error e =>
      rw [hg] at h
      simp at h

theorem futureGet_ne_empty_front (ser : Serialization α β) (ds : Dataset ε α)
    (f : PendingFetch) : f.get ser ds ≠ .error .empty_front := by
  unfold PendingFetch.get
  split
  · split <;> simp
  · simp

theorem serveFront_ne_empty_front (ser : Serialization α β) (idx : Int)
    (t : PrefetchDataset ε α) (tr : List (Event × PrefetchDataset ε α))
    (hq : t.prefetchCache_ ≠ []) :
    (serveFront ser idx t tr).outcome ≠ .error .empty_front := by
  unfold serveFront
  split
  · next h => exact absurd h hq
  · next f rest _ =>
    split
    · simp
    · next e he =>
      intro h
      simp only [Except.error.injEq] at h
      rw [h] at he
      exact futureGet_ne_empty_front ser t.dataset_ f he

/-! ## Number of iterations -/

theorem reconcileCount_backward (c idx : Int) (L : Nat) (h : idx < c) :
    reconcileCount c idx L = L := by
  unfold reconcileCount
  split
  · omega
  · rfl

theorem removeFromCache_trace_length (idx : Int) (s : PrefetchDataset ε α) :
    (removeFromCache idx s).2.length =
      reconcileCount s.curIdx_ idx s.prefetchCache_.length := by
  have h := congrArg List.length (removeFromCache_eq idx s).2
  simp only [List.length_map, List.length_take] at h
  rw [h]
  exact min_eq_left (reconcileCount_le _ _ _)

theorem addToCache_trace_length (idx : Int) (s : PrefetchDataset ε α) :
    (addToCache idx s).2.length =
      refillCount s.prefetchSize_ s.size idx s.prefetchCache_.length := by
  have h := congrArg List.length (addToCache_eq idx s).2
  simp only [List.length_map, intRange_length] at h
  exact h

/-! ## The positional invariant -/

theorem targets_of_get {c : Int} {q : List PendingFetch}
    (h : ∀ (k : Nat) (hk : k < q.length), (q.get ⟨k, hk⟩).fetchIdx = c + k) :
    Targets c q := by
  induction q generalizing c with
  | nil => trivial
  | cons f rest ih =>
    refine ⟨by simpa using h 0 (by simp), ih fun k hk => ?_⟩
    have := h (k + 1) (by simpa using hk)
    simp only [List.get_eq_getElem, List.getElem_cons_succ] at this ⊢
    rw [this]
    push_cast
    ring

theorem PositionalInvariant.targets {s : PrefetchDataset ε α} (h : PositionalInvariant s) :
    Targets s.curIdx_ s.prefetchCache_ :=
  targets_of_get fun k hk => (h k hk).1

theorem PositionalInvariant.fetchIdx_lt {s : PrefetchDataset ε α} (h : PositionalInvariant s)
    (f : PendingFetch) (hf : f ∈ s.prefetchCache_) :
    f.fetchIdx < s.curIdx_ + s.prefetchCache_.length ∧ f.fetchIdx < s.size := by
  obtain ⟨⟨k, hk⟩, rfl⟩ := List.mem_iff_get.1 hf
  obtain ⟨h1, h2⟩ := h k hk
  refine ⟨?_, h2⟩
  rw [h1]
  have : (k : Int) < s.prefetchCache_.length := by exact_mod_cast hk
  omega

theorem PositionalInvariant.end_le_size {s : PrefetchDataset ε α} (h : PositionalInvariant s)
    (hq : s.prefetchCache_ ≠ []) : s.curIdx_ + s.prefetchCache_.length ≤ s.size := by
  have hpos : 0 < s.prefetchCache_.length := List.length_pos.2 hq
  obtain ⟨h1, h2⟩ := h (s.prefetchCache_.length - 1) (by omega)
  rw [h1] at h2
  have : ((s.prefetchCache_.length - 1 : Nat) : Int) = (s.prefetchCache_.length : Int) - 1 := by
    omega
  omega

theorem targets_map_fetchIdx {c : Int} {q : List PendingFetch} (h : Targets c q) :
    q.map (fun f => f.fetchIdx) = intRange c q.length := by
  induction q generalizing c with
  | nil => rfl
  | cons f rest ih =>
    simp only [List.map_cons, List.length_cons, intRange, h.1, ih h.2]

/-! ## Length of the queue that is served -/

/-- After both loops the queue has `min prefetchSize_ (size() - idx)` entries, when
the queue before the call satisfied the positional invariant and held at most
`prefetchSize_` entries. -/
theorem refilled_length (s : PrefetchDataset ε α) (idx : Int)
    (h1 : idx < s.size) (hpos : PositionalInvariant s)
    (hlen : (s.prefetchCache_.length : Int) ≤ s.prefetchSize_) :
    ((addToCache idx (removeFromCache idx s).1).1.prefetchCache_.length : Int) =
      min s.prefetchSize_ (s.size - idx) := by
  have hr := (removeFromCache_eq idx s).1
  have ha := (addToCache_eq idx (removeFromCache idx s).1).1
  have hle := reconcileCount_le s.curIdx_ idx s.prefetchCache_.length
  rw [ha, hr]
  simp only [List.length_append, List.length_drop, freshFutures_length, PrefetchDataset.size,
    Nat.cast_add]
  have hend : idx + ((s.prefetchCache_.length -
      reconcileCount s.curIdx_ idx s.prefetchCache_.length : Nat) : Int) ≤ s.dataset_.size := by
    by_cases hwin : s.curIdx_ ≤ idx ∧ idx < s.curIdx_ + s.prefetchCache_.length
    · have hk : reconcileCount s.curIdx_ idx s.prefetchCache_.length =
          (idx - s.curIdx_).toNat := by
        unfold reconcileCount
        rw [if_pos hwin]
      have hne : s.prefetchCache_ ≠ [] := by
        intro hnil
        rw [hnil] at hwin
        simp at hwin
        omega
      have := hpos.end_le_size hne
      simp only [PrefetchDataset.size] at this
      rw [hk] at hle ⊢
      omega
    · have hk : reconcileCount s.curIdx_ idx s.prefetchCache_.length =
          s.prefetchCache_.length := by
        unfold reconcileCount
        rw [if_neg hwin]
      simp only [PrefetchDataset.size] at h1
      rw [hk]
      simp only [Nat.sub_self, Nat.cast_zero, add_zero]
      omega
  unfold refillCount
  omega

/-! ## One call on a queue of live futures for `idx, idx + 1, ...` -/

theorem freshFutures_append (a : Int) (n m : Nat) :
    freshFutures a n ++ freshFutures (a + n) m = freshFutures a (n + m) := by
  unfold freshFutures
  rw [← List.map_append, intRange_append]

theorem freshFutures_succ (a : Int) (n : Nat) :
    freshFutures a (n + 1) = { fetchIdx := a, valid := true } :: freshFutures (a + 1) n := by
  simp [freshFutures, intRange]

/-- A call `get(idx)` on a queue of `L` live futures for `idx, ..., idx + L - 1`
(with `curIdx_ = idx` unless the queue is empty), the source answering `idx`: nothing
is dropped, the pool gets the indices that follow the queue, and the object is left
with `curIdx_ = idx + 1` and the live futures that follow `idx`. -/
theorem get_on_fresh_window (ser : Serialization α β) (s : PrefetchDataset ε α) (idx : Int)
    (L : Nat) (h0 : 0 ≤ idx) (h1 : idx < s.size) (hn : s.numThreads_ ≠ 0)
    (hw : 0 < s.prefetchSize_) (hq : s.prefetchCache_ = freshFutures idx L)
    (hcur : L = 0 ∨ s.curIdx_ = idx) (a : α) (ha : s.dataset_.get idx = .ok a) :
    (s.get ser idx).discarded = [] ∧
      (s.get ser idx).submitted =
        intRange (idx + L) (refillCount s.prefetchSize_ s.size idx L) ∧
      (s.get ser idx).state =
        { s with curIdx_ := idx + 1
                 prefetchCache_ := freshFutures (idx + 1)
                   (L + refillCount s.prefetchSize_ s.size idx L - 1) } ∧
      (s.get ser idx).outcome = .ok (ser.load (ser.save a)) := by
  have hlen : s.prefetchCache_.length = L := by rw [hq, freshFutures_length]
  have hk : reconcileCount s.curIdx_ idx s.prefetchCache_.length = 0 := by
    rw [hlen]
    rcases hcur with hcur | hcur
    · rw [hcur]; exact reconcileCount_nil _ _
    · rw [hcur]
      cases L with
      | zero => exact reconcileCount_nil _ _
      | succ n => exact reconcileCount_eq _ _
  obtain ⟨hd, hsub⟩ := get_discarded_submitted ser s idx h0 h1 hn
  rw [hk] at hd hsub
  rw [hlen] at hsub
  have hrm : (removeFromCache idx s).1 = s := by
    rw [(removeFromCache_eq idx s).1, hk]
    cases s
    simp
  have hpos : 1 ≤ L + refillCount s.prefetchSize_ s.size idx L := by
    unfold refillCount
    omega
  have hadd : (addToCache idx s).1 =
      { s with prefetchCache_ := { fetchIdx := idx, valid := true } ::
        freshFutures (idx + 1) (L + refillCount s.prefetchSize_ s.size idx L - 1) } := by
    rw [(addToCache_eq idx s).1, hlen, hq, freshFutures_append, ← freshFutures_succ]
    congr 2
    omega
  refine ⟨by rw [hd]; rfl, by simpa using hsub, ?_, ?_⟩
  · rw [get_of_prefetch ser s idx h0 h1 hn, hrm, hadd]
    simp [serveFront, PendingFetch.get, fetchTask, ha]
  · rw [get_of_prefetch ser s idx h0 h1 hn, hrm, hadd]
    simp [serveFront, PendingFetch.get, fetchTask, ha]

/-! ## The sequential walk -/

/-- The walk `get(i), get(i + 1), ..., get(size() - 1)` started on a queue of `L`
live futures for `i, ..., i + L - 1`: the pool gets the indices from `i + L` up to
`size() - 1` once each and in order, and no call drops a future.  When the queue
before `get(i)`, `i ≥ 1`, is what `get(i - 1)` left (`L + 1 = prefetchSize_` or
`i + L = size()`), each call hands the pool the index `idx + prefetchSize_ - 1` if it
is below `size()` and nothing otherwise. -/
theorem walk_from (ser : Serialization α β) :
    ∀ (rem : Nat) (i : Int) (L : Nat) (s : PrefetchDataset ε α),
      s.numThreads_ ≠ 0 → 0 < s.prefetchSize_ →
      (∀ j, 0 ≤ j → j < s.size → ∃ a, s.dataset_.get j = .ok a) →
      0 ≤ i → i + rem = s.size →
      s.prefetchCache_ = freshFutures i L → (L = 0 ∨ s.curIdx_ = i) →
      (L : Int) ≤ s.prefetchSize_ → i + L ≤ s.size →
      (1 ≤ i → (L : Int) + 1 ≤ s.prefetchSize_ ∧
        ((L : Int) + 1 = s.prefetchSize_ ∨ i + L = s.size)) →
      allSubmitted (calls ser s (intRange i rem)) =
          intRange (i + L) (s.size - i - L).toNat ∧
        (∀ r ∈ calls ser s (intRange i rem), r.discarded = []) ∧
        (∀ r, (calls ser s (intRange i rem))[0]? = some r →
          r.submitted = intRange (i + L) (refillCount s.prefetchSize_ s.size i L)) ∧
        (∀ (k : Nat) (r : GetResult ε α), (calls ser s (intRange i rem))[k]? = some r →
          1 ≤ i + k →
          r.submitted =
            if i + k + s.prefetchSize_ - 1 < s.size then [i + k + s.prefetchSize_ - 1]
            else []) := by
  intro rem
  induction rem with
  | zero =>
    intro i L s _ _ _ _ hrem _ _ _ hend _
    have h0 : (s.size - i - L).toNat = 0 := by
      simp only [Nat.cast_zero, add_zero] at hrem
      omega
    simp [calls, intRange, allSubmitted, h0]
  | succ rem ih =>
    intro i L s hn hw hsrc hi hrem hq hcur hL hend hJ
    have hlt : i < s.size := by
      push_cast at hrem
      omega
    obtain ⟨a, ha⟩ := hsrc i hi hlt
    obtain ⟨hd, hsub, hstate, -⟩ := get_on_fresh_window ser s i L hi hlt hn hw hq hcur a ha
    have hm : ((refillCount s.prefetchSize_ s.size i L : Nat) : Int) =
        min (s.prefetchSize_ - L) (s.size - i - L) := by
      unfold refillCount
      omega
    have hsize' : (s.get ser i).state.size = s.size := by rw [hstate]; rfl
    have hps' : (s.get ser i).state.prefetchSize_ = s.prefetchSize_ := by rw [hstate]
    have hrec := ih (i + 1) (L + refillCount s.prefetchSize_ s.size i L - 1) (s.get ser i).state
      (by rw [hstate]; exact hn) (by rw [hps']; exact hw)
      (by rw [hsize', hstate]; exact hsrc) (by omega)
      (by rw [hsize']; push_cast at hrem ⊢; omega)
      (by rw [hstate]) (Or.inr (by rw [hstate]))
      (by rw [hps']; omega) (by rw [hsize']; omega)
      (fun _ => by rw [hps', hsize']; omega)
    rw [hsize', hps'] at hrec
    obtain ⟨hA, hB, -, hC⟩ := hrec
    have hcalls : calls ser s (intRange i (rem + 1)) =
        s.get ser i :: calls ser (s.get ser i).state (intRange (i + 1) rem) := rfl
    rw [hcalls]
    refine ⟨?_, ?_, ?_, ?_⟩
    · simp only [allSubmitted]
      rw [hA, hsub]
      have e1 : i + 1 + ((L + refillCount s.prefetchSize_ s.size i L - 1 : Nat) : Int) =
          i + L + (refillCount s.prefetchSize_ s.size i L : Nat) := by omega
      rw [e1, intRange_append]
      congr 1
      omega
    · intro r hr
      rcases List.mem_cons.1 hr with rfl | hr
      · exact hd
      · exact hB r hr
    · intro r hr
      simp only [List.getElem?_cons_zero, Option.some.injEq] at hr
      rw [← hr]
      exact hsub
    · intro k r hr hk
      cases k with
      | zero =>
        simp only [List.getElem?_cons_zero, Option.some.injEq] at hr
        rw [← hr, hsub]
        simp only [Nat.cast_zero, add_zero] at hk ⊢
        obtain ⟨hJ1, hJ2⟩ := hJ hk
        by_cases hlast : i + s.prefetchSize_ - 1 < s.size
        · rw [if_pos hlast]
          have h1 : refillCount s.prefetchSize_ s.size i L = 1 := by omega
          have h2 : i + L = i + s.prefetchSize_ - 1 := by omega
          rw [h1, h2]
          rfl
        · rw [if_neg hlast]
          have h1 : refillCount s.prefetchSize_ s.size i L = 0 := by omega
          rw [h1]
          rfl
      | succ k =>
        simp only [List.getElem?_cons_succ] at hr
        have := hC k r hr (by omega)
        rw [this]
        have e2 : i + 1 + (k : Int) = i + ((k + 1 : Nat) : Int) := by push_cast; ring
        rw [e2]

/-! ## Sequences of calls -/

theorem session_eq_map_calls (ser : Serialization α β) (idxs : List Int) :
    ∀ s : PrefetchDataset ε α,
      session ser s idxs = (calls ser s idxs).map fun r => r.outcome := by
  induction idxs with
  | nil => intro s; rfl
  | cons idx rest ih =>
    intro s
    simp only [session, calls, List.map_cons, ih]

theorem calls_length (ser : Serialization α β) (idxs : List Int) :
    ∀ s : PrefetchDataset ε α, (calls ser s idxs).length = idxs.length := by
  induction idxs with
  | nil => intro s; rfl
  | cons idx rest ih =>
    intro s
    simp only [calls, List.length_cons, ih]

/-- A repeated `get(0)` with `prefetchSize = 2`: the second call drops the future
for index 1 without waiting for its task, and hands the pool a new task for
index 1. -/
theorem repeated_get_submits_index_again :
    ((exampleCache 4 [] 2 2).get exampleSerialization 0).submitted = [0, 1] ∧
    (runCalls exampleSerialization (exampleCache 4 [] 2 2) [0]).prefetchCache_ =
      [⟨1, true⟩] ∧
    ((runCalls exampleSerialization (exampleCache 4 [] 2 2) [0]).get
      exampleSerialization 0).discarded = [⟨1, true⟩] ∧
    ((runCalls exampleSerialization (exampleCache 4 [] 2 2) [0]).get
      exampleSerialization 0).submitted = [0, 1] :=
  ⟨rfl, rfl, rfl, rfl⟩

/-! ## Indices of the queued futures -/

theorem intRange_nodup (a : Int) (n : Nat) : (intRange a n).Nodup := by
  induction n generalizing a with
  | zero => exact List.nodup_nil
  | succ n ih =>
    simp only [intRange, List.nodup_cons]
    refine ⟨fun h => ?_, ih (a + 1)⟩
    have := (mem_intRange.1 h).1
    omega

theorem targets_nodup {c : Int} {q : List PendingFetch} (h : Targets c q) :
    (q.map fun f => f.fetchIdx).Nodup := by
  rw [targets_map_fetchIdx h]
  exact intRange_nodup c q.length

theorem targets_mem {c : Int} {q : List PendingFetch} (h : Targets c q) (f : PendingFetch)
    (hf : f ∈ q) : c ≤ f.fetchIdx ∧ f.fetchIdx < c + q.length := by
  have hmem : f.fetchIdx ∈ q.map fun f => f.fetchIdx := List.mem_map.2 ⟨f, hf, rfl⟩
  rw [targets_map_fetchIdx h] at hmem
  exact mem_intRange.1 hmem

theorem removeFromCache_trace_targets (idx : Int) (s : PrefetchDataset ε α)
    (h : Targets s.curIdx_ s.prefetchCache_) :
    ∀ p ∈ (removeFromCache idx s).2, Targets p.2.curIdx_ p.2.prefetchCache_ :=
  (whileLoop_induct (removeFromCacheBody idx)
    (fun t => Targets t.curIdx_ t.prefetchCache_)
    (fun p => Targets p.2.curIdx_ p.2.prefetchCache_)
    (fun t e t' ht hb => by
      obtain ⟨f, rest, hq, -, -, rfl⟩ := removeFromCacheBody_eq_some hb
      have ht' : Targets t.curIdx_ t.prefetchCache_ := ht
      rw [hq] at ht'
      exact ⟨ht'.2, ht'.2⟩) s.prefetchCache_.length s h).2

theorem addToCache_trace_targets (idx : Int) (s : PrefetchDataset ε α)
    (h : Targets idx s.prefetchCache_) :
    ∀ p ∈ (addToCache idx s).2, Targets idx p.2.prefetchCache_ :=
  (whileLoop_induct (addToCacheBody idx)
    (fun t => Targets idx t.prefetchCache_) (fun p => Targets idx p.2.prefetchCache_)
    (fun t e t' ht hb => by
      obtain ⟨-, -, -, rfl⟩ := addToCacheBody_eq_some hb
      exact ⟨ht.append true, ht.append true⟩) _ s h).2

/-- The end of `get` leaves the indices of the queue as they were, or without the
first. -/
theorem serveFront_indices (ser : Serialization α β) (idx : Int) (t : PrefetchDataset ε α)
    (tr : List (Event × PrefetchDataset ε α)) :
    ((serveFront ser idx t tr).state.prefetchCache_.map fun f => f.fetchIdx) =
        (t.prefetchCache_.map fun f => f.fetchIdx) ∨
      ((serveFront ser idx t tr).state.prefetchCache_.map fun f => f.fetchIdx) =
        (t.prefetchCache_.map fun f => f.fetchIdx).tail := by
  unfold serveFront
  split
  · exact Or.inl rfl
  · next f rest hq =>
    split
    · right
      simp [hq]
    · left
      simp [hq]

/-- From a queue that targets `curIdx_, curIdx_ + 1, ...`, the queue has pairwise
distinct indices after every loop iteration of a call of `get` and at its end, and
no index handed to the pool is the index of an entry the first loop kept. -/
theorem get_queue_nodup (ser : Serialization α β) (s : PrefetchDataset ε α) (idx : Int)
    (ht : Targets s.curIdx_ s.prefetchCache_) :
    (∀ p ∈ (s.get ser idx).trace, (p.2.prefetchCache_.map fun f => f.fetchIdx).Nodup) ∧
      ((s.get ser idx).state.prefetchCache_.map fun f => f.fetchIdx).Nodup ∧
      ∀ i ∈ (s.get ser idx).submitted, ∀ f ∈ (removeFromCache idx s).1.prefetchCache_,
        f.fetchIdx ≠ i := by
  by_cases h : 0 ≤ idx ∧ idx < s.size
  · by_cases hn : s.numThreads_ = 0
    · rw [get_of_passthrough ser s idx h.1 h.2 hn]
      exact ⟨fun p hp => by simp at hp, targets_nodup ht,
        fun i hi => by simp [GetResult.submitted] at hi⟩
    · have hkept := removeFromCache_targets idx s ht
      have hfull := addToCache_targets idx _ hkept
      refine ⟨?_, ?_, ?_⟩
      · rw [get_of_prefetch ser s idx h.1 h.2 hn, serveFront_trace]
        intro p hp
        rcases List.mem_append.1 hp with hp | hp
        · exact targets_nodup (removeFromCache_trace_targets idx s ht p hp)
        · exact targets_nodup (addToCache_trace_targets idx _ hkept p hp)
      · rw [get_of_prefetch ser s idx h.1 h.2 hn]
        rcases serveFront_indices ser idx (addToCache idx (removeFromCache idx s).1).1
          ((removeFromCache idx s).2 ++ (addToCache idx (removeFromCache idx s).1).2)
          with he | he
        · rw [he]
          exact targets_nodup hfull
        · rw [he]
          exact (targets_nodup hfull).sublist (List.tail_sublist _)
      · intro i hi f hf heq
        have hsub := (get_discarded_submitted ser s idx h.1 h.2 hn).2
        rw [hsub] at hi
        have hge := (mem_intRange.1 hi).1
        have hlt := (targets_mem hkept f hf).2
        rw [(removeFromCache_eq idx s).1] at hlt
        simp only [List.length_drop] at hlt
        omega
  · rw [get_of_out_of_range ser s idx h]
    exact ⟨fun p hp => by simp at hp, targets_nodup ht,
      fun i hi => by simp [GetResult.submitted] at hi⟩

/-- After a call that threw an exception of the source the queue can hold two live
futures for one index: on a fresh object over a source of size 4 that throws on
index 0 (`prefetchSize = 3`), `get(0)` throws and the queue that `get(1)` serves
is `[2, 2, 3]`. -/
theorem queue_holds_index_twice_after_fetch_error :
    ((exampleCache 4 [0] 1 3).get exampleSerialization 0).outcome = .error (.fetch ()) ∧
    (addToCache 1 (removeFromCache 1
      (runCalls exampleSerialization (exampleCache 4 [0] 1 3) [0])).1).1.prefetchCache_ =
      [⟨2, true⟩, ⟨2, true⟩, ⟨3, true⟩] :=
  ⟨rfl, rfl⟩

/-! ## The claims -/

/-- C1: for a source whose `get` never fails on an index of `[0, size())`, every
prefetch-mode configuration (`numThreads > 0`, `prefetchSize > 0`) and every finite
sequence of valid indices issued to the freshly constructed object, the calls of
`get` return what direct calls of the source return (given that `load (save a) = a`):
position by position the answer is the sample `source.get(idx)`.  The right-hand side
does not mention `numThreads` or `prefetchSize`. -/
theorem get_returns_source_samples (ser : Serialization α β) (ds : Dataset ε α)
    (numThreads prefetchSize : Int) (hn : 0 < numThreads) (hw : 0 < prefetchSize)
    (hsrc : ∀ i, 0 ≤ i → i < ds.size → ∃ a, ds.get i = .ok a)
    (hser : ∀ a, ser.load (ser.save a) = a)
    (idxs : List Int) (hidx : ∀ i ∈ idxs, 0 ≤ i ∧ i < ds.size) :
    ∃ s0, PrefetchDataset.new (some ds) numThreads prefetchSize = .ok s0 ∧
      session ser s0 idxs = directSession ds idxs ∧
      ∀ (k : Nat) (i : Int), idxs[k]? = some i →
        ∃ a, ds.get i = .ok a ∧ (session ser s0 idxs)[k]? = some (.ok a) := by
  refine ⟨_, new_ok ds numThreads prefetchSize (Or.inl ⟨hn, hw⟩), ?_⟩
  have hs := session_synced ser hser idxs
    { dataset_ := ds, numThreads_ := numThreads, prefetchSize_ := prefetchSize, curIdx_ := -1,
      prefetchCache_ := [], threadPool_ := if numThreads > 0 then some ⟨numThreads⟩ else none }
    (ne_of_gt hn) hw trivial (fun f hf => by simp at hf) hsrc hidx
  refine ⟨hs, fun k i hk => ?_⟩
  obtain ⟨h0, h1⟩ := hidx i (List.getElem?_mem hk)
  obtain ⟨a, ha⟩ := hsrc i h0 h1
  refine ⟨a, ha, ?_⟩
  rw [hs]
  simp only [directSession, List.getElem?_map, hk, Option.map_some', directGet, ha]

theorem get_returns_source_samples_witness :
    (∀ i, 0 ≤ i → i < (exampleSource 4 []).size → ∃ a, (exampleSource 4 []).get i = .ok a) ∧
    (∀ a, exampleSerialization.load (exampleSerialization.save a) = a) ∧
    ∃ s0, PrefetchDataset.new (some (exampleSource 4 [])) 2 3 = .ok s0 ∧
      session exampleSerialization s0 [0, 1, 2, 0] = directSession (exampleSource 4 []) [0, 1, 2, 0] ∧
      ∀ (k : Nat) (i : Int), [0, 1, 2, (0 : Int)][k]? = some i →
        ∃ a, (exampleSource 4 []).get i = .ok a ∧
          (session exampleSerialization s0 [0, 1, 2, 0])[k]? = some (.ok a) :=
  ⟨fun i _ _ => ⟨10 + i, by simp [exampleSource]⟩,
   fun a => by simp [exampleSerialization],
   get_returns_source_samples exampleSerialization (exampleSource 4 []) 2 3 (by decide) (by decide)
    (fun i _ _ => ⟨10 + i, by simp [exampleSource]⟩)
    (fun a => by simp [exampleSerialization])
    [0, 1, 2, 0] (by simp [exampleSource])⟩

/-- C2: what `get` does when the fetch for `idx` failed.  On a fresh object over a
source of size 4 that throws on index 0 (`numThreads = 1`, `prefetchSize = 3`),
`get(0)` throws the exception of the source and leaves the queue with the failed
future still at its front and `curIdx_ = -1`, not `0 + 1`.  On a source that throws
on index 1, `get(0)` succeeds and `get(1)` throws, leaving the failed future for
index 1 at the front and `curIdx_ = 1`, not `1 + 1`. -/
theorem failed_fetch_is_not_consumed :
    PrefetchDataset.new (some (exampleSource 4 [0])) 1 3 = .ok (exampleCache 4 [0] 1 3) ∧
    ((exampleCache 4 [0] 1 3).get exampleSerialization 0).outcome = .error (.fetch ()) ∧
    ((exampleCache 4 [0] 1 3).get exampleSerialization 0).state.prefetchCache_ =
      [⟨0, false⟩, ⟨1, true⟩, ⟨2, true⟩] ∧
    ((exampleCache 4 [0] 1 3).get exampleSerialization 0).state.curIdx_ = -1 ∧
    session exampleSerialization (exampleCache 4 [1] 1 3) [0, 1] =
      [.ok 10, .error (.fetch ())] ∧
    (runCalls exampleSerialization (exampleCache 4 [1] 1 3) [0, 1]).prefetchCache_ =
      [⟨1, false⟩, ⟨2, true⟩, ⟨3, true⟩] ∧
    (runCalls exampleSerialization (exampleCache 4 [1] 1 3) [0, 1]).curIdx_ = 1 :=
  ⟨rfl, rfl, rfl, rfl, rfl, rfl, rfl⟩

/-- C3: a session in which a call for an index other than the failing one does not
return the sample of the source.  The source has size 4 and throws on index 0 only;
on a fresh object with `prefetchSize = 3` the calls `get(0), get(1)` give the
exception and then the sample of index 2, while the source answers index 1 with a
different sample. -/
theorem get_after_failure_returns_other_sample :
    PrefetchDataset.new (some (exampleSource 4 [0])) 1 3 = .ok (exampleCache 4 [0] 1 3) ∧
    session exampleSerialization (exampleCache 4 [0] 1 3) [0, 1] =
      [.error (.fetch ()), .ok 12] ∧
    (exampleSource 4 [0]).get 1 = .ok 11 ∧
    (exampleSource 4 [0]).get 2 = .ok 12 :=
  ⟨rfl, rfl, rfl, rfl⟩

/-- C4: a state reached from construction by one call of `get` that threw the
exception of the source, in which the positional invariant fails: the future at
position 0 targets index 0 while `curIdx_ + 0 = -1`. -/
theorem positional_invariant_fails_after_fetch_error :
    Reachable exampleSerialization (exampleCache 4 [0] 1 3)
      ((exampleCache 4 [0] 1 3).get exampleSerialization 0).state ∧
    ((exampleCache 4 [0] 1 3).get exampleSerialization 0).outcome = .error (.fetch ()) ∧
    ¬ PositionalInvariant ((exampleCache 4 [0] 1 3).get exampleSerialization 0).state := by
  refine ⟨Reachable.call 0 Reachable.start, rfl, ?_⟩
  decide

/-- C5: in prefetch mode, in every state reachable from construction by calls of
`get` (whatever their outcome) the queue holds at most `prefetchSize` futures, and
during any further call it holds at most `prefetchSize` futures after every executed
iteration of the removing loop and of the adding loop, and at the end of the call. -/
theorem queue_length_le_prefetchSize (ser : Serialization α β) (ds : Dataset ε α)
    (numThreads prefetchSize : Int) (hn : 0 < numThreads) (hw : 0 < prefetchSize)
    (s0 s : PrefetchDataset ε α)
    (hnew : PrefetchDataset.new (some ds) numThreads prefetchSize = .ok s0)
    (hr : Reachable ser s0 s) :
    (s.prefetchCache_.length : Int) ≤ prefetchSize ∧
      ∀ idx : Int,
        (∀ p ∈ (s.get ser idx).trace, (p.2.prefetchCache_.length : Int) ≤ prefetchSize) ∧
        ((s.get ser idx).state.prefetchCache_.length : Int) ≤ prefetchSize := by
  obtain ⟨-, -, h3, -, h5⟩ := new_eq_ok hnew hn hw
  have hlen : (s.prefetchCache_.length : Int) ≤ s0.prefetchSize_ :=
    hr.length_le (by rw [h5, h3]; simpa using le_of_lt hw)
  have hc := hr.sameConfig
  have hg := fun idx => get_length_le ser s idx (by rw [hc.2.2.1]; exact hlen)
  rw [hc.2.2.1, h3] at hg
  rw [h3] at hlen
  exact ⟨hlen, hg⟩

theorem queue_length_le_prefetchSize_witness :
    Reachable exampleSerialization (exampleCache 4 [0] 1 3)
      ((exampleCache 4 [0] 1 3).get exampleSerialization 0).state ∧
    (((exampleCache 4 [0] 1 3).get exampleSerialization 0).state.prefetchCache_.length : Int)
      ≤ 3 ∧
    ∀ idx : Int,
      (∀ p ∈ (((exampleCache 4 [0] 1 3).get exampleSerialization 0).state.get
          exampleSerialization idx).trace, (p.2.prefetchCache_.length : Int) ≤ 3) ∧
      ((((exampleCache 4 [0] 1 3).get exampleSerialization 0).state.get
          exampleSerialization idx).state.prefetchCache_.length : Int) ≤ 3 :=
  ⟨Reachable.call 0 Reachable.start,
   queue_length_le_prefetchSize exampleSerialization (exampleSource 4 [0]) 1 3
    (by decide) (by decide) (exampleCache 4 [0] 1 3) _ rfl (Reachable.call 0 Reachable.start)⟩

/-- C6: a session in which `get(N - 1)` does not succeed although the source does
not fail on `N - 1`.  The source has size 6 and throws on indices 0 and 1; on a
fresh object with `prefetchSize = 2` the calls `get(2), get(0), get(5)` give a
sample, the exception of index 0, and again an exception: `get(5)` waits for the
future of index 1.  (That no call hands the pool an index outside `[0, size())` is
`submitted_in_range`.) -/
theorem tail_get_fails_after_fetch_error :
    PrefetchDataset.new (some (exampleSource 6 [0, 1])) 1 2 = .ok (exampleCache 6 [0, 1] 1 2) ∧
    session exampleSerialization (exampleCache 6 [0, 1] 1 2) [2, 0, 5] =
      [.ok 12, .error (.fetch ()), .error (.fetch ())] ∧
    (exampleSource 6 [0, 1]).get 5 = .ok 15 ∧
    (runCalls exampleSerialization (exampleCache 6 [0, 1] 1 2) [2, 0]).curIdx_ = 4 ∧
    (runCalls exampleSerialization (exampleCache 6 [0, 1] 1 2) [2, 0]).prefetchCache_ =
      [⟨0, false⟩, ⟨1, true⟩] :=
  ⟨rfl, rfl, rfl, rfl, rfl⟩

/-- C7: in both modes and from every state, `get(idx)` with `idx < 0` or
`idx ≥ size()` fails with the out-of-range error, the object is exactly what it was
before the call (so `curIdx_` and the queue are unchanged), no loop iteration runs
and no task is handed to the pool; and `get` never fails with the out-of-range error
when `0 ≤ idx < size()`. -/
theorem get_out_of_range_is_atomic (ser : Serialization α β) (s : PrefetchDataset ε α)
    (idx : Int) :
    ((idx < 0 ∨ s.size ≤ idx) →
      (s.get ser idx).outcome = .error .out_of_range ∧ (s.get ser idx).state = s ∧
        (s.get ser idx).trace = [] ∧ (s.get ser idx).submitted = []) ∧
    ((0 ≤ idx ∧ idx < s.size) → (s.get ser idx).outcome ≠ .error .out_of_range) := by
  constructor
  · intro h
    rw [get_of_out_of_range ser s idx (by omega)]
    exact ⟨rfl, rfl, rfl, rfl⟩
  · intro h
    by_cases hn : s.numThreads_ = 0
    · rw [get_of_passthrough ser s idx h.1 h.2 hn]
      exact directGet_ne_out_of_range s.dataset_ idx
    · rw [get_of_prefetch ser s idx h.1 h.2 hn]
      exact serveFront_ne_out_of_range ser idx _ _

theorem get_out_of_range_is_atomic_witness :
    ((7 : Int) < 0 ∨ (runCalls exampleSerialization (exampleCache 4 [] 1 3) [0]).size ≤ 7) ∧
    ((runCalls exampleSerialization (exampleCache 4 [] 1 3) [0]).get
        exampleSerialization 7).outcome = .error .out_of_range ∧
    ((runCalls exampleSerialization (exampleCache 4 [] 1 3) [0]).get
        exampleSerialization 7).state = runCalls exampleSerialization (exampleCache 4 [] 1 3) [0] ∧
    ((runCalls exampleSerialization (exampleCache 4 [] 1 3) [0]).get
        exampleSerialization 7).trace = [] ∧
    ((runCalls exampleSerialization (exampleCache 4 [] 1 3) [0]).get
        exampleSerialization 7).submitted = [] :=
  ⟨Or.inr (by decide),
   (get_out_of_range_is_atomic exampleSerialization
    (runCalls exampleSerialization (exampleCache 4 [] 1 3) [0]) 7).1 (Or.inr (by decide))⟩

/-- C8: the constructor fails with the invalid-argument error if and only if the
dataset pointer is null or `(numThreads, prefetchSize)` is neither `(0, 0)` nor a
pair of two positive numbers, and it returns an object in exactly the other cases;
so `(2, 0)`, `(0, 2)` and every pair with a negative component are rejected. -/
theorem new_invalid_argument_iff (dataset : Option (Dataset ε α))
    (numThreads prefetchSize : Int) :
    (PrefetchDataset.new dataset numThreads prefetchSize = .error .invalid_argument ↔
      (dataset = none ∨
        ¬((numThreads = 0 ∧ prefetchSize = 0) ∨ (0 < numThreads ∧ 0 < prefetchSize)))) ∧
    ((∃ s, PrefetchDataset.new dataset numThreads prefetchSize = .ok s) ↔
      (dataset ≠ none ∧
        ((numThreads = 0 ∧ prefetchSize = 0) ∨ (0 < numThreads ∧ 0 < prefetchSize)))) ∧
    PrefetchDataset.new dataset 2 0 = .error .invalid_argument ∧
    PrefetchDataset.new dataset 0 2 = .error .invalid_argument ∧
    ((numThreads < 0 ∨ prefetchSize < 0) →
      PrefetchDataset.new dataset numThreads prefetchSize = .error .invalid_argument) := by
  have key : ∀ n w : Int,
      (PrefetchDataset.new dataset n w = .error .invalid_argument ↔
        (dataset = none ∨ ¬((n = 0 ∧ w = 0) ∨ (0 < n ∧ 0 < w)))) ∧
      ((∃ s, PrefetchDataset.new dataset n w = .ok s) ↔
        (dataset ≠ none ∧ ((n = 0 ∧ w = 0) ∨ (0 < n ∧ 0 < w)))) := by
    intro n w
    cases dataset with
    | none => simp [PrefetchDataset.new]
    | some ds =>
      by_cases h : (0 < n ∧ 0 < w) ∨ (n = 0 ∧ w = 0)
      · rw [new_ok ds n w h]
        refine ⟨⟨fun h' => (by cases h'), fun h' => ?_⟩, ⟨fun _ => ⟨(by simp), h.symm⟩,
          fun _ => ⟨_, rfl⟩⟩⟩
        rcases h' with h' | h'
        · cases h'
        · exact absurd h.symm h'
      · have hne : PrefetchDataset.new (some ds) n w = .error .invalid_argument := by
          unfold PrefetchDataset.new
          simp only [gt_iff_lt]
          rw [if_pos]
          exact ⟨fun h1 => h (Or.inl h1), fun h2 => h (Or.inr h2)⟩
        rw [hne]
        refine ⟨⟨fun _ => Or.inr (fun h' => h h'.symm), fun _ => rfl⟩,
          ⟨fun h' => ?_, fun h' => absurd h'.2.symm h⟩⟩
        obtain ⟨s, hs⟩ := h'
        cases hs
  refine ⟨(key numThreads prefetchSize).1, (key numThreads prefetchSize).2, ?_, ?_, ?_⟩
  · exact (key 2 0).1.2 (Or.inr (by decide))
  · exact (key 0 2).1.2 (Or.inr (by decide))
  · intro h
    exact (key numThreads prefetchSize).1.2 (Or.inr (by omega))

theorem new_invalid_argument_iff_witness :
    ((-1 : Int) < 0 ∨ (3 : Int) < 0) ∧
    PrefetchDataset.new (some (exampleSource 4 [])) (-1) 3 = .error .invalid_argument ∧
    (∃ s, PrefetchDataset.new (some (exampleSource 4 [])) 2 3 = .ok s) ∧
    (∃ s, PrefetchDataset.new (some (exampleSource 4 [])) 0 0 = .ok s) :=
  ⟨Or.inl (by decide),
   (new_invalid_argument_iff (some (exampleSource 4 [])) (-1) 3).2.2.2.2 (Or.inl (by decide)),
   ⟨_, rfl⟩, ⟨_, rfl⟩⟩

/-- C9: in pass-through mode (`numThreads_ = 0`, `prefetchSize_ = 0`), for every
valid `idx` the call `get(idx)` yields exactly the outcome of `source.get(idx)` (the
same sample, or the same error), runs no loop iteration, hands no task to the pool
and leaves the object as it was; so any sequence of valid calls is answered as by
the source alone and ends in the state it started from. -/
theorem passthrough_get_is_source_get (ser : Serialization α β) (s : PrefetchDataset ε α)
    (hn : s.numThreads_ = 0) (_hw : s.prefetchSize_ = 0) :
    (∀ idx : Int, 0 ≤ idx → idx < s.size →
      (s.get ser idx).outcome = directGet s.dataset_ idx ∧ (s.get ser idx).state = s ∧
        (s.get ser idx).trace = [] ∧ (s.get ser idx).submitted = []) ∧
    (∀ idxs : List Int, (∀ i ∈ idxs, 0 ≤ i ∧ i < s.size) →
      session ser s idxs = directSession s.dataset_ idxs ∧ runCalls ser s idxs = s) := by
  constructor
  · intro idx h0 h1
    rw [get_of_passthrough ser s idx h0 h1 hn]
    exact ⟨rfl, rfl, rfl, rfl⟩
  · intro idxs hidx
    exact session_passthrough ser s hn idxs hidx

theorem passthrough_get_is_source_get_witness :
    PrefetchDataset.new (some (exampleSource 4 [1])) 0 0 = .ok (exampleCache 4 [1] 0 0) ∧
    (exampleCache 4 [1] 0 0).numThreads_ = 0 ∧ (exampleCache 4 [1] 0 0).prefetchSize_ = 0 ∧
    session exampleSerialization (exampleCache 4 [1] 0 0) [2, 1, 0] =
      directSession (exampleSource 4 [1]) [2, 1, 0] ∧
    directSession (exampleSource 4 [1]) [2, 1, 0] = [.ok 12, .error (.fetch ()), .ok 10] ∧
    runCalls exampleSerialization (exampleCache 4 [1] 0 0) [2, 1, 0] = exampleCache 4 [1] 0 0 :=
  ⟨rfl, rfl, rfl,
   ((passthrough_get_is_source_get exampleSerialization (exampleCache 4 [1] 0 0) rfl rfl).2
      [2, 1, 0] (by simp [exampleCache, exampleSource, PrefetchDataset.size])).1,
   rfl,
   ((passthrough_get_is_source_get exampleSerialization (exampleCache 4 [1] 0 0) rfl rfl).2
      [2, 1, 0] (by simp [exampleCache, exampleSource, PrefetchDataset.size])).2⟩

/-- C10: for a prefetch-mode object in any state reached from construction by calls
of `get` none of which threw an exception of the source, and every valid `idx`:
`get(idx)` throws the exception `e` of the source if and only if `source.get(idx)`
throws `e`; when `source.get(idx)` returns a sample, `get(idx)` returns it (after
`save` and `load`), and this holds in particular when the call has handed the pool a
task for an index `idx + k`, `k ≥ 1`, on which the source throws. -/
theorem fetch_error_attribution (ser : Serialization α β) (ds : Dataset ε α)
    (numThreads prefetchSize : Int) (hn : 0 < numThreads) (hw : 0 < prefetchSize)
    (s0 s : PrefetchDataset ε α)
    (hnew : PrefetchDataset.new (some ds) numThreads prefetchSize = .ok s0)
    (hr : ReachableNoFetchError ser s0 s) (idx : Int) (h0 : 0 ≤ idx) (h1 : idx < ds.size) :
    (∀ e, (s.get ser idx).outcome = .error (.fetch e) ↔ ds.get idx = .error e) ∧
    (∀ a, ds.get idx = .ok a → (s.get ser idx).outcome = .ok (ser.load (ser.save a))) ∧
    (∀ k : Int, 1 ≤ k → idx + k ∈ (s.get ser idx).submitted →
      (∃ e, ds.get (idx + k) = .error e) →
      ∀ a, ds.get idx = .ok a → (s.get ser idx).outcome = .ok (ser.load (ser.save a))) := by
  obtain ⟨h1', h2', h3', h4', h5'⟩ := new_eq_ok hnew hn hw
  obtain ⟨hc, hT, hV⟩ := hr.synced (by rw [h3']; exact hw) (by rw [h5']; trivial)
    (by rw [h5']; intro f hf; simp at hf)
  have hds : s.dataset_ = ds := hc.1.trans h1'
  have hsz : idx < s.size := by unfold PrefetchDataset.size; rw [hds]; exact h1
  have hnt : s.numThreads_ ≠ 0 := by rw [hc.2.1, h2']; exact ne_of_gt hn
  have hps : 0 < s.prefetchSize_ := by rw [hc.2.2.1, h3']; exact hw
  cases ha : ds.get idx with
  | ok a =>
    have ho := (get_synced_ok ser s idx h0 hsz hnt hps hT hV a (by rw [hds]; exact ha)).1
    rw [ho]
    refine ⟨fun e => by simp, fun a' ha' => ?_, fun _ _ _ _ a' ha' => ?_⟩ <;>
    · cases ha'
      rfl
  | error e0 =>
    have ho := get_synced_error ser s idx h0 hsz hnt hps hT hV e0 (by rw [hds]; exact ha)
    rw [ho]
    exact ⟨fun e => by simp, fun a' ha' => (by cases ha'),
      fun _ _ _ _ a' ha' => (by cases ha')⟩

theorem fetch_error_attribution_witness :
    ReachableNoFetchError exampleSerialization (exampleCache 4 [2] 1 2)
      ((exampleCache 4 [2] 1 2).get exampleSerialization 0).state ∧
    (1 + 1 : Int) ∈ (((exampleCache 4 [2] 1 2).get exampleSerialization 0).state.get
      exampleSerialization 1).submitted ∧
    (∃ e, (exampleSource 4 [2]).get (1 + 1) = .error e) ∧
    (((exampleCache 4 [2] 1 2).get exampleSerialization 0).state.get
      exampleSerialization 1).outcome = .ok 11 ∧
    (∀ e, (((exampleCache 4 [2] 1 2).get exampleSerialization 0).state.get
      exampleSerialization 2).outcome = .error (.fetch e) ↔
        (exampleSource 4 [2]).get 2 = .error e) :=
  ⟨ReachableNoFetchError.call 0 ReachableNoFetchError.start (fun e h => by cases h),
   by decide, ⟨(), rfl⟩,
   (fetch_error_attribution exampleSerialization (exampleSource 4 [2]) 1 2 (by decide)
      (by decide) (exampleCache 4 [2] 1 2) _ rfl
      (ReachableNoFetchError.call 0 ReachableNoFetchError.start (fun e h => by cases h))
      1 (by decide) (by decide)).2.2 1 (by decide) (by decide) ⟨(), rfl⟩ 11 rfl,
   (fetch_error_attribution exampleSerialization (exampleSource 4 [2]) 1 2 (by decide)
      (by decide) (exampleCache 4 [2] 1 2) _ rfl
      (ReachableNoFetchError.call 0 ReachableNoFetchError.start (fun e h => by cases h))
      2 (by decide) (by decide)).1⟩

/-- C11: in prefetch mode (the branch of `get` taken when `numThreads_` is not 0),
from every state and for every valid `idx`, when `get(idx)` returns a sample the
member `curIdx_` is `idx + 1` afterwards, whatever it was before. -/
theorem get_ok_sets_curIdx (ser : Serialization α β) (s : PrefetchDataset ε α) (idx : Int)
    (hn : s.numThreads_ ≠ 0) (h0 : 0 ≤ idx) (h1 : idx < s.size) (a : α)
    (ha : (s.get ser idx).outcome = .ok a) :
    (s.get ser idx).state.curIdx_ = idx + 1 := by
  rw [get_of_prefetch ser s idx h0 h1 hn] at ha ⊢
  obtain ⟨f, rest, -, hstate⟩ := serveFront_ok ser idx _ _ a ha
  rw [hstate]

theorem get_ok_sets_curIdx_witness :
    (exampleCache 6 [] 1 2).curIdx_ = -1 ∧
    ((exampleCache 6 [] 1 2).get exampleSerialization 0).state.curIdx_ = 0 + 1 ∧
    (runCalls exampleSerialization (exampleCache 6 [] 1 2) [0]).curIdx_ = 1 ∧
    ((runCalls exampleSerialization (exampleCache 6 [] 1 2) [0]).get
      exampleSerialization 1).state.curIdx_ = 1 + 1 ∧
    (runCalls exampleSerialization (exampleCache 6 [] 1 2) [0, 1]).curIdx_ = 2 ∧
    ((runCalls exampleSerialization (exampleCache 6 [] 1 2) [0, 1]).get
      exampleSerialization 4).state.curIdx_ = 4 + 1 ∧
    (runCalls exampleSerialization (exampleCache 6 [] 1 2) [0, 1, 4]).curIdx_ = 5 ∧
    ((runCalls exampleSerialization (exampleCache 6 [] 1 2) [0, 1, 4]).get
      exampleSerialization 0).state.curIdx_ = 0 + 1 :=
  ⟨rfl,
   get_ok_sets_curIdx exampleSerialization (exampleCache 6 [] 1 2) 0 (by decide) (by decide)
    (by decide) 10 rfl,
   rfl,
   get_ok_sets_curIdx exampleSerialization
    (runCalls exampleSerialization (exampleCache 6 [] 1 2) [0]) 1 (by decide) (by decide)
    (by decide) 11 rfl,
   rfl,
   get_ok_sets_curIdx exampleSerialization
    (runCalls exampleSerialization (exampleCache 6 [] 1 2) [0, 1]) 4 (by decide) (by decide)
    (by decide) 14 rfl,
   rfl,
   get_ok_sets_curIdx exampleSerialization
    (runCalls exampleSerialization (exampleCache 6 [] 1 2) [0, 1, 4]) 0 (by decide) (by decide)
    (by decide) 10 rfl⟩

/-- C15: for every prefetch-mode object, every state reachable from construction by
calls of `get` (whatever their outcome, failed calls included) and every valid
`idx`, the call `get(idx)` runs the two loops and then reads `front()` of a queue
that is not empty. -/
theorem front_is_read_on_nonempty_queue (ser : Serialization α β) (ds : Dataset ε α)
    (numThreads prefetchSize : Int) (hn : 0 < numThreads) (hw : 0 < prefetchSize)
    (s0 s : PrefetchDataset ε α)
    (hnew : PrefetchDataset.new (some ds) numThreads prefetchSize = .ok s0)
    (hr : Reachable ser s0 s) (idx : Int) (h0 : 0 ≤ idx) (h1 : idx < ds.size) :
    s.get ser idx = serveFront ser idx (addToCache idx (removeFromCache idx s).1).1
        ((removeFromCache idx s).2 ++ (addToCache idx (removeFromCache idx s).1).2) ∧
      (addToCache idx (removeFromCache idx s).1).1.prefetchCache_ ≠ [] ∧
      (s.get ser idx).outcome ≠ .error .empty_front := by
  obtain ⟨h1', h2', h3', -, -⟩ := new_eq_ok hnew hn hw
  have hc := hr.sameConfig
  have hsz : idx < s.size := by rw [hc.size_eq, PrefetchDataset.size, h1']; exact h1
  have hnt : s.numThreads_ ≠ 0 := by rw [hc.2.1, h2']; exact ne_of_gt hn
  have hc1 := (removeFromCache_sameConfig idx s).1
  have hne : (addToCache idx (removeFromCache idx s).1).1.prefetchCache_ ≠ [] :=
    addToCache_ne_nil idx _ (by rw [hc1.size_eq]; exact hsz)
      (by rw [hc1.2.2.1, hc.2.2.1, h3']; exact hw)
  refine ⟨get_of_prefetch ser s idx h0 hsz hnt, hne, ?_⟩
  rw [get_of_prefetch ser s idx h0 hsz hnt]
  exact serveFront_ne_empty_front ser idx _ _ hne

theorem front_is_read_on_nonempty_queue_witness :
    Reachable exampleSerialization (exampleCache 4 [0] 1 3)
      (runCalls exampleSerialization (exampleCache 4 [0] 1 3) [0]) ∧
    ((exampleCache 4 [0] 1 3).get exampleSerialization 0).outcome = .error (.fetch ()) ∧
    (addToCache 1 (removeFromCache 1
      (runCalls exampleSerialization (exampleCache 4 [0] 1 3) [0])).1).1.prefetchCache_ ≠ [] ∧
    ((runCalls exampleSerialization (exampleCache 4 [0] 1 3) [0]).get
      exampleSerialization 1).outcome ≠ .error .empty_front :=
  ⟨Reachable.call 0 Reachable.start, rfl,
   (front_is_read_on_nonempty_queue exampleSerialization (exampleSource 4 [0]) 1 3 (by decide)
    (by decide) (exampleCache 4 [0] 1 3) _ rfl (Reachable.call 0 Reachable.start) 1
    (by decide) (by decide)).2⟩

/-- C17: both loops of `get` end, from every state.  The first loop leaves by its
own condition after at most `prefetchCache_.size()` iterations, and more fuel does
not change its run; on a backward jump (`idx < curIdx_`), where `curIdx_` stays
above `idx` after every iteration, it runs exactly `prefetchCache_.size()`
iterations and empties the queue.  The second loop leaves by its own condition (or
its `break`) after at most `prefetchSize_` iterations, and more fuel does not
change its run. -/
theorem get_loops_terminate (s t : PrefetchDataset ε α) (idx : Int) :
    (removeFromCacheBody idx (removeFromCache idx s).1 = none ∧
      (removeFromCache idx s).2.length ≤ s.prefetchCache_.length ∧
      ∀ fuel, s.prefetchCache_.length ≤ fuel →
        whileLoop (removeFromCacheBody idx) fuel s = removeFromCache idx s) ∧
    (idx < s.curIdx_ →
      (removeFromCache idx s).2.length = s.prefetchCache_.length ∧
      (removeFromCache idx s).1.prefetchCache_ = [] ∧
      ∀ p ∈ (removeFromCache idx s).2, idx < p.2.curIdx_) ∧
    (addToCacheBody idx (addToCache idx t).1 = none ∧
      (addToCache idx t).2.length ≤ t.prefetchSize_.toNat ∧
      ∀ fuel, (t.prefetchSize_ - t.prefetchCache_.length).toNat ≤ fuel →
        whileLoop (addToCacheBody idx) fuel t = addToCache idx t) := by
  refine ⟨⟨removeFromCache_exit idx s, whileLoop_trace_length _ _ _, fun fuel hfuel => ?_⟩,
    fun hback => ⟨?_, ?_, ?_⟩, ⟨addToCache_exit idx t, ?_, fun fuel hfuel => ?_⟩⟩
  · exact whileLoop_fuel (removeFromCacheBody idx) (fun u => u.prefetchCache_.length)
      (fun u e u' hb => removeFromCacheBody_decreases idx u u' e hb) fuel _ s hfuel (le_refl _)
  · rw [removeFromCache_trace_length, reconcileCount_backward _ _ _ hback]
  · rw [(removeFromCache_eq idx s).1, reconcileCount_backward _ _ _ hback]
    simp
  · intro p hp
    obtain ⟨j, hj⟩ := List.mem_iff_getElem?.1 hp
    have := (whileLoop_remove idx s.prefetchCache_ s s.prefetchCache_.length rfl
      (le_refl _)).2.2 j p hj
    rw [this.1]
    push_cast
    omega
  · have := whileLoop_trace_length (addToCacheBody idx)
      (t.prefetchSize_ - t.prefetchCache_.length).toNat t
    have h2 : (addToCache idx t).2.length ≤
        (t.prefetchSize_ - t.prefetchCache_.length).toNat := this
    omega
  · exact whileLoop_fuel (addToCacheBody idx)
      (fun u => (u.prefetchSize_ - u.prefetchCache_.length).toNat)
      (fun u e u' hb => addToCacheBody_decreases idx u u' e hb) fuel _ t hfuel (le_refl _)

theorem get_loops_terminate_witness :
    (0 : Int) < (runCalls exampleSerialization (exampleCache 6 [] 1 3) [2]).curIdx_ ∧
    (runCalls exampleSerialization (exampleCache 6 [] 1 3) [2]).prefetchCache_.length = 2 ∧
    (removeFromCache 0
      (runCalls exampleSerialization (exampleCache 6 [] 1 3) [2])).2.length = 2 ∧
    (removeFromCache 0
      (runCalls exampleSerialization (exampleCache 6 [] 1 3) [2])).1.prefetchCache_ = [] ∧
    (addToCache 0 (exampleCache 6 [] 1 3)).2.length ≤ 3 :=
  ⟨by decide, rfl,
   ((get_loops_terminate (runCalls exampleSerialization (exampleCache 6 [] 1 3) [2])
      (exampleCache 6 [] 1 3) 0).2.1 (by decide)).1,
   ((get_loops_terminate (runCalls exampleSerialization (exampleCache 6 [] 1 3) [2])
      (exampleCache 6 [] 1 3) 0).2.1 (by decide)).2.1,
   (get_loops_terminate (runCalls exampleSerialization (exampleCache 6 [] 1 3) [2])
      (exampleCache 6 [] 1 3) 0).2.2.2.1⟩

/-- C13: for a prefetch-mode state with base index `c = curIdx_` and queue length
`L` that satisfies the positional invariant, and a valid `idx`: when
`c ≤ idx < c + L` the call `get(idx)` drops exactly the first `idx - c` futures, the
other `L - (idx - c)` stay at the front of the queue that is served and none of
their indices is handed to the pool again; otherwise it drops all `L` futures.  The
first loop leaves `curIdx_` advanced by the number of dropped futures, and after its
`j + 1`-th iteration `curIdx_` is `c + (j + 1)`. -/
theorem reconcile_discards (ser : Serialization α β) (s : PrefetchDataset ε α) (idx : Int)
    (hn : s.numThreads_ ≠ 0) (h0 : 0 ≤ idx) (h1 : idx < s.size)
    (hpos : PositionalInvariant s) :
    ((s.curIdx_ ≤ idx ∧ idx < s.curIdx_ + s.prefetchCache_.length) →
      (s.get ser idx).discarded = s.prefetchCache_.take (idx - s.curIdx_).toNat ∧
      ((s.get ser idx).discarded.length : Int) = idx - s.curIdx_ ∧
      (removeFromCache idx s).1.prefetchCache_ =
        s.prefetchCache_.drop (idx - s.curIdx_).toNat ∧
      ((removeFromCache idx s).1.prefetchCache_.length : Int) =
        s.prefetchCache_.length - (idx - s.curIdx_) ∧
      (∃ pushed, (addToCache idx (removeFromCache idx s).1).1.prefetchCache_ =
        s.prefetchCache_.drop (idx - s.curIdx_).toNat ++ pushed) ∧
      ∀ f ∈ (removeFromCache idx s).1.prefetchCache_,
        f.fetchIdx ∉ (s.get ser idx).submitted) ∧
    (¬(s.curIdx_ ≤ idx ∧ idx < s.curIdx_ + s.prefetchCache_.length) →
      (s.get ser idx).discarded = s.prefetchCache_ ∧
      ((s.get ser idx).discarded.length : Int) = s.prefetchCache_.length ∧
      (removeFromCache idx s).1.prefetchCache_ = []) ∧
    (removeFromCache idx s).1.curIdx_ = s.curIdx_ + (s.get ser idx).discarded.length ∧
    (∀ (j : Nat) (p : Event × PrefetchDataset ε α), (removeFromCache idx s).2[j]? = some p →
      p.2.curIdx_ = s.curIdx_ + (j + 1 : Nat) ∧
        p.2.prefetchCache_ = s.prefetchCache_.drop (j + 1)) := by
  obtain ⟨hd, hsub⟩ := get_discarded_submitted ser s idx h0 h1 hn
  have hr := (removeFromCache_eq idx s).1
  have hle := reconcileCount_le s.curIdx_ idx s.prefetchCache_.length
  refine ⟨fun hwin => ?_, fun hout => ?_, ?_, ?_⟩
  · have hk : reconcileCount s.curIdx_ idx s.prefetchCache_.length = (idx - s.curIdx_).toNat := by
      unfold reconcileCount
      rw [if_pos hwin]
    rw [hk] at hd hr hsub hle
    have hq : (removeFromCache idx s).1.prefetchCache_ =
        s.prefetchCache_.drop (idx - s.curIdx_).toNat := by rw [hr]
    refine ⟨hd, ?_, hq, ?_, ⟨_, by rw [(addToCache_eq idx _).1, hq]⟩, fun f hf hmem => ?_⟩
    · rw [hd, List.length_take]
      omega
    · rw [hq, List.length_drop]
      omega
    · rw [hq] at hf
      have hlt := (hpos.fetchIdx_lt f (List.mem_of_mem_drop hf)).1
      rw [hsub] at hmem
      have hge := (mem_intRange.1 hmem).1
      omega
  · have hk : reconcileCount s.curIdx_ idx s.prefetchCache_.length =
        s.prefetchCache_.length := by
      unfold reconcileCount
      rw [if_neg hout]
    rw [hk] at hd hr
    refine ⟨by rw [hd, List.take_length], by rw [hd, List.take_length], ?_⟩
    rw [hr]
    simp
  · rw [hr, hd, List.length_take]
    simp only [Nat.cast_min]
    rw [min_eq_left (by exact_mod_cast hle)]
  · exact (whileLoop_remove idx s.prefetchCache_ s s.prefetchCache_.length rfl (le_refl _)).2.2

theorem reconcile_discards_witness :
    PositionalInvariant (runCalls exampleSerialization (exampleCache 8 [] 1 4) [0]) ∧
    (runCalls exampleSerialization (exampleCache 8 [] 1 4) [0]).curIdx_ = 1 ∧
    (runCalls exampleSerialization (exampleCache 8 [] 1 4) [0]).prefetchCache_ =
      [⟨1, true⟩, ⟨2, true⟩, ⟨3, true⟩] ∧
    ((runCalls exampleSerialization (exampleCache 8 [] 1 4) [0]).get
      exampleSerialization 3).discarded = [⟨1, true⟩, ⟨2, true⟩] ∧
    (removeFromCache 3
      (runCalls exampleSerialization (exampleCache 8 [] 1 4) [0])).1.prefetchCache_ =
        [⟨3, true⟩] ∧
    ((runCalls exampleSerialization (exampleCache 8 [] 1 4) [0]).get
      exampleSerialization 0).discarded = [⟨1, true⟩, ⟨2, true⟩, ⟨3, true⟩] ∧
    ((runCalls exampleSerialization (exampleCache 8 [] 1 4) [0]).get
      exampleSerialization 6).discarded = [⟨1, true⟩, ⟨2, true⟩, ⟨3, true⟩] :=
  ⟨by decide, rfl, rfl,
   ((reconcile_discards exampleSerialization
      (runCalls exampleSerialization (exampleCache 8 [] 1 4) [0]) 3 (by decide) (by decide)
      (by decide) (by decide)).1 (by decide)).1,
   ((reconcile_discards exampleSerialization
      (runCalls exampleSerialization (exampleCache 8 [] 1 4) [0]) 3 (by decide) (by decide)
      (by decide) (by decide)).1 (by decide)).2.2.1,
   ((reconcile_discards exampleSerialization
      (runCalls exampleSerialization (exampleCache 8 [] 1 4) [0]) 0 (by decide) (by decide)
      (by decide) (by decide)).2.1 (by decide)).1,
   ((reconcile_discards exampleSerialization
      (runCalls exampleSerialization (exampleCache 8 [] 1 4) [0]) 6 (by decide) (by decide)
      (by decide) (by decide)).2.1 (by decide)).1⟩

/-- C14: for a prefetch-mode object over a source of size `N`, from any state
reachable from construction that satisfies the positional invariant, after a call
`get(idx)` that returned a sample the queue holds, in order, exactly the futures for
the indices `idx + 1, idx + 2, ..., min(idx + prefetchSize, N) - 1`; its length is
`min(prefetchSize, N - idx) - 1`, so it is empty when `prefetchSize = 1` or
`idx = N - 1`. -/
theorem queue_after_successful_get (ser : Serialization α β) (ds : Dataset ε α)
    (numThreads prefetchSize : Int) (hn : 0 < numThreads) (hw : 0 < prefetchSize)
    (s0 s : PrefetchDataset ε α)
    (hnew : PrefetchDataset.new (some ds) numThreads prefetchSize = .ok s0)
    (hr : Reachable ser s0 s) (hpos : PositionalInvariant s)
    (idx : Int) (h0 : 0 ≤ idx) (h1 : idx < ds.size) (a : α)
    (ha : (s.get ser idx).outcome = .ok a) :
    (s.get ser idx).state.prefetchCache_.map (fun f => f.fetchIdx) =
        intRange (idx + 1) (min prefetchSize (ds.size - idx) - 1).toNat ∧
      ((s.get ser idx).state.prefetchCache_.length : Int) =
        min prefetchSize (ds.size - idx) - 1 ∧
      ((prefetchSize = 1 ∨ idx = ds.size - 1) → (s.get ser idx).state.prefetchCache_ = []) := by
  obtain ⟨h1', h2', h3', -, h5'⟩ := new_eq_ok hnew hn hw
  have hc := hr.sameConfig
  have hsize : s.size = ds.size := by rw [hc.size_eq, PrefetchDataset.size, h1']
  have hps : s.prefetchSize_ = prefetchSize := by rw [hc.2.2.1, h3']
  have hnt : s.numThreads_ ≠ 0 := by rw [hc.2.1, h2']; exact ne_of_gt hn
  have hlen : (s.prefetchCache_.length : Int) ≤ s.prefetchSize_ := by
    rw [hc.2.2.1]
    exact hr.length_le (by rw [h5', h3']; simpa using le_of_lt hw)
  have hL := refilled_length s idx (by rw [hsize]; exact h1) hpos hlen
  rw [hsize, hps] at hL
  have hT := addToCache_targets idx _ (removeFromCache_targets idx s hpos.targets)
  rw [get_of_prefetch ser s idx h0 (by rw [hsize]; exact h1) hnt] at ha ⊢
  obtain ⟨f, rest, hq, hstate⟩ := serveFront_ok ser idx _ _ a ha
  rw [hstate]
  rw [hq] at hT hL
  simp only [List.length_cons, Nat.cast_add, Nat.cast_one] at hL
  have hlen' : rest.length = (min prefetchSize (ds.size - idx) - 1).toNat := by omega
  refine ⟨?_, ?_, fun h => ?_⟩
  · show rest.map (fun f => f.fetchIdx) = _
    rw [targets_map_fetchIdx hT.2, hlen']
  · show (rest.length : Int) = _
    omega
  · show rest = []
    apply List.eq_nil_of_length_eq_zero
    rcases h with h | h <;> omega

theorem queue_after_successful_get_witness :
    Reachable exampleSerialization (exampleCache 6 [] 1 3)
      (runCalls exampleSerialization (exampleCache 6 [] 1 3) [0]) ∧
    PositionalInvariant (runCalls exampleSerialization (exampleCache 6 [] 1 3) [0]) ∧
    ((runCalls exampleSerialization (exampleCache 6 [] 1 3) [0]).get
      exampleSerialization 4).state.prefetchCache_.map (fun f => f.fetchIdx) = [5] ∧
    ((runCalls exampleSerialization (exampleCache 6 [] 1 3) [0]).get
      exampleSerialization 5).state.prefetchCache_ = [] :=
  ⟨Reachable.call 0 Reachable.start, by decide,
   (queue_after_successful_get exampleSerialization (exampleSource 6 []) 1 3 (by decide)
    (by decide) (exampleCache 6 [] 1 3) _ rfl (Reachable.call 0 Reachable.start) (by decide)
    4 (by decide) (by decide) 14 rfl).1,
   (queue_after_successful_get exampleSerialization (exampleSource 6 []) 1 3 (by decide)
    (by decide) (exampleCache 6 [] 1 3) _ rfl (Reachable.call 0 Reachable.start) (by decide)
    5 (by decide) (by decide) 15 rfl).2.2 (Or.inr (by decide))⟩

/-- C16: for a fresh prefetch-mode object over a source of size `N` whose `get`
never fails, and any `prefetchSize`, the calls `get(0), get(1), ..., get(N - 1)`
hand the pool the indices `0, 1, ..., N - 1`, each exactly once and in this order;
no call drops a future; `get(0)` submits the `min(prefetchSize, N)` indices
`0, ..., min(prefetchSize, N) - 1`, and every later `get(idx)` submits the single
index `idx + prefetchSize - 1` when it is below `N` and nothing otherwise. -/
theorem sequential_walk_submits_each_index_once (ser : Serialization α β) (ds : Dataset ε α)
    (numThreads prefetchSize : Int) (hn : 0 < numThreads) (hw : 0 < prefetchSize)
    (N : Nat) (hN : ds.size = N)
    (hsrc : ∀ j, 0 ≤ j → j < ds.size → ∃ a, ds.get j = .ok a) :
    ∃ s0, PrefetchDataset.new (some ds) numThreads prefetchSize = .ok s0 ∧
      allSubmitted (calls ser s0 (intRange 0 N)) = intRange 0 N ∧
      (∀ r ∈ calls ser s0 (intRange 0 N), r.discarded = []) ∧
      (∀ r, (calls ser s0 (intRange 0 N))[0]? = some r →
        r.submitted = intRange 0 (min prefetchSize N).toNat ∧
          (r.submitted.length : Int) = min prefetchSize N) ∧
      (∀ (k : Nat) (r : GetResult ε α), 1 ≤ k →
        (calls ser s0 (intRange 0 N))[k]? = some r →
        r.submitted =
          if (k : Int) + prefetchSize - 1 < N then [(k : Int) + prefetchSize - 1] else []) := by
  refine ⟨_, new_ok ds numThreads prefetchSize (Or.inl ⟨hn, hw⟩), ?_⟩
  have hwalk := walk_from ser N 0 0
    { dataset_ := ds, numThreads_ := numThreads, prefetchSize_ := prefetchSize, curIdx_ := -1,
      prefetchCache_ := [], threadPool_ := if numThreads > 0 then some ⟨numThreads⟩ else none }
    (ne_of_gt hn) hw hsrc (le_refl 0)
    (by simp only [PrefetchDataset.size, hN]; omega) rfl (Or.inl rfl)
    (by simp only [Nat.cast_zero]; omega)
    (by simp only [PrefetchDataset.size, hN, Nat.cast_zero]; omega)
    (fun h => absurd h (by decide))
  simp only [PrefetchDataset.size, hN, Nat.cast_zero, add_zero, sub_zero, zero_add,
    Int.toNat_ofNat] at hwalk
  obtain ⟨hA, hB, hC0, hC⟩ := hwalk
  refine ⟨hA, hB, fun r hr => ?_, fun k r hk hr => ?_⟩
  · have h := hC0 r hr
    have hcount : refillCount prefetchSize N 0 0 = (min prefetchSize N).toNat := by
      unfold refillCount
      simp
    rw [hcount] at h
    refine ⟨h, ?_⟩
    rw [h, intRange_length]
    omega
  · have h := hC k r hr (by omega)
    rw [h]

theorem sequential_walk_submits_each_index_once_witness :
    (∀ j, 0 ≤ j → j < (exampleSource 5 []).size → ∃ a, (exampleSource 5 []).get j = .ok a) ∧
    ∃ s0, PrefetchDataset.new (some (exampleSource 5 [])) 1 2 = .ok s0 ∧
      allSubmitted (calls exampleSerialization s0 (intRange 0 5)) = intRange 0 5 ∧
      (∀ r ∈ calls exampleSerialization s0 (intRange 0 5), r.discarded = []) ∧
      (∀ r, (calls exampleSerialization s0 (intRange 0 5))[0]? = some r →
        r.submitted = intRange 0 (min (2 : Int) (5 : Nat)).toNat ∧
          (r.submitted.length : Int) = min (2 : Int) (5 : Nat)) ∧
      (∀ (k : Nat) (r : GetResult Unit Int), 1 ≤ k →
        (calls exampleSerialization s0 (intRange 0 5))[k]? = some r →
        r.submitted =
          if (k : Int) + 2 - 1 < (5 : Nat) then [(k : Int) + 2 - 1] else []) :=
  ⟨fun j _ _ => ⟨10 + j, by simp [exampleSource]⟩,
   sequential_walk_submits_each_index_once exampleSerialization (exampleSource 5 []) 1 2
    (by decide) (by decide) 5 rfl (fun j _ _ => ⟨10 + j, by simp [exampleSource]⟩)⟩

/-- A schedule of `get(0); get(0)` on a fresh object with `numThreads = 2`,
`prefetchSize = 2` over a source of size 4 that never fails: its consumer steps are
those of the two calls, every step of it can happen, and it ends with two fetches of
index 1 running at once; so the guarantee "no two in-flight fetches target the same
index" does not hold for these calls. -/
theorem two_fetches_of_one_index_run_at_once :
    PrefetchDataset.new (some (exampleSource 4 [])) 2 2 = .ok (exampleCache 4 [] 2 2) ∧
    sessionEvents exampleSerialization (exampleCache 4 [] 2 2) [0, 0] =
      [.submit 0, .submit 1, .await 0, .drop 1, .submit 0, .submit 1, .await 0] ∧
    consumerPart exampleSchedule =
      sessionEvents exampleSerialization (exampleCache 4 [] 2 2) [0, 0] ∧
    (initialPool (exampleCache 4 [] 2 2)).run exampleSchedule =
      some { workers := 2, waiting := [], running := [1, 1] } ∧
    ¬ NoTwoFetchesInFlight exampleSerialization (exampleCache 4 [] 2 2) [0, 0] := by
  refine ⟨rfl, rfl, rfl, rfl, fun h => ?_⟩
  have hdup := h exampleSchedule [] { workers := 2, waiting := [], running := [1, 1] } rfl rfl
  revert hdup
  decide

/-- C12 (as amended): counting only the fetches whose futures are held in the
queue, in every state reached from construction by calls of `get` none of which
threw an exception of the source, the queued futures target pairwise distinct
indices: between calls, after every loop iteration of a further call `get(idx)` and
at its end; and that call hands the pool no index that an entry it kept in the
queue targets. -/
theorem queued_fetches_target_distinct_indices (ser : Serialization α β) (ds : Dataset ε α)
    (numThreads prefetchSize : Int) (hn : 0 < numThreads) (hw : 0 < prefetchSize)
    (s0 s : PrefetchDataset ε α)
    (hnew : PrefetchDataset.new (some ds) numThreads prefetchSize = .ok s0)
    (hr : ReachableNoFetchError ser s0 s) (idx : Int) :
    (s.prefetchCache_.map fun f => f.fetchIdx).Nodup ∧
      (∀ p ∈ (s.get ser idx).trace, (p.2.prefetchCache_.map fun f => f.fetchIdx).Nodup) ∧
      ((s.get ser idx).state.prefetchCache_.map fun f => f.fetchIdx).Nodup ∧
      ∀ i ∈ (s.get ser idx).submitted, ∀ f ∈ (removeFromCache idx s).1.prefetchCache_,
        f.fetchIdx ≠ i := by
  obtain ⟨-, -, h3', -, h5'⟩ := new_eq_ok hnew hn hw
  obtain ⟨-, hT, -⟩ := hr.synced (by rw [h3']; exact hw) (by rw [h5']; trivial)
    (by rw [h5']; intro f hf; simp at hf)
  exact ⟨targets_nodup hT, get_queue_nodup ser s idx hT⟩

theorem queued_fetches_target_distinct_indices_witness :
    ReachableNoFetchError exampleSerialization (exampleCache 4 [] 2 2)
      (runCalls exampleSerialization (exampleCache 4 [] 2 2) [0]) ∧
    (runCalls exampleSerialization (exampleCache 4 [] 2 2) [0]).prefetchCache_ =
      [⟨1, true⟩] ∧
    ((runCalls exampleSerialization (exampleCache 4 [] 2 2) [0]).get
      exampleSerialization 1).submitted = [2] ∧
    (((runCalls exampleSerialization (exampleCache 4 [] 2 2) [0]).get
      exampleSerialization 1).state.prefetchCache_.map fun f => f.fetchIdx).Nodup ∧
    ∀ i ∈ ((runCalls exampleSerialization (exampleCache 4 [] 2 2) [0]).get
        exampleSerialization 1).submitted,
      ∀ f ∈ (removeFromCache 1
        (runCalls exampleSerialization (exampleCache 4 [] 2 2) [0])).1.prefetchCache_,
        f.fetchIdx ≠ i :=
  ⟨ReachableNoFetchError.call 0 ReachableNoFetchError.start (fun e h => by cases h),
   rfl, rfl,
   (queued_fetches_target_distinct_indices exampleSerialization (exampleSource 4 []) 2 2
    (by decide) (by decide) (exampleCache 4 [] 2 2) _ rfl
    (ReachableNoFetchError.call 0 ReachableNoFetchError.start (fun e h => by cases h))
    1).2.2.1,
   (queued_fetches_target_distinct_indices exampleSerialization (exampleSource 4 []) 2 2
    (by decide) (by decide) (exampleCache 4 [] 2 2) _ rfl
    (ReachableNoFetchError.call 0 ReachableNoFetchError.start (fun e h => by cases h))
    1).2.2.2⟩

end fl
